import Mathlib

/-!
# CANifier (ctre::phoenix::CANifier), src/main/native/cpp/CANifier.cpp

A shallow embedding of the CANifier wrapper class.  Every member function of the
class forwards to one function of the C link (`c_CANifier_*`), which is an
external collaborator: it is modelled as an arbitrary transition function on an
arbitrary device state.  Every call made through the link is logged, together
with the answer it produced, so that statements about "what is sent to the
device" are statements about that log.

Conventions
* `double` is modelled by `ℚ` (every finite double is a rational; NaN and the
  infinities are not modelled).  Comparisons are exact; the product of two
  doubles is the exact product rounded to binary64 (`roundDouble`), as on the
  targets of the library.
* `int` is modelled by `Int`; enumerations (`ErrorCode`, `LEDChannel`,
  `CANifierVelocityMeasPeriod`) by their underlying integer.  The integer fields
  of CANifierConfiguration, which GetAllConfigs fills by a cast from a double,
  are of type `CInt`, the integers in the range of a 32-bit int; the cast is
  `castInt`, whose result outside that range is undefined in C++ and is a
  parameter.
* an out-parameter of a link function is modelled by a field of the answer that
  holds the content of the variable after the call.
-/

namespace CANifier

/-! ## Data model -/

/-- ErrorCode of the Phoenix library, by its integer value. -/
abbrev ErrorCode := Int

/-- The "no error" outcome (`0 indicates no error`). -/
def OK : ErrorCode := 0

/-- The parameter kinds (ParamEnum) that CANifier.cpp names. -/
inductive ParamEnum where
  | eSampleVelocityPeriod
  | eSampleVelocityWindow
  | eClearPositionOnLimitF
  | eClearPositionOnLimitR
  | eClearPositionOnQuadIdx
  | eCustomParam
  deriving DecidableEq, Repr

/-- The range of the C++ type int (32 bits, two's complement). -/
def IsInt32 (n : Int) : Prop := -2147483648 ≤ n ∧ n ≤ 2147483647

instance (n : Int) : Decidable (IsInt32 n) :=
  inferInstanceAs (Decidable (-2147483648 ≤ n ∧ n ≤ 2147483647))

/-- A value of the C++ type int. -/
abbrev CInt := { n : Int // IsInt32 n }

/-- The integer literals of type int (one that does not fit reads as 0). -/
instance (n : Nat) : OfNat CInt n :=
  ⟨if h : IsInt32 (n : Int) then ⟨n, h⟩ else ⟨0, by decide⟩⟩

/-- CANifierConfiguration: the seven persistent settings.  The sampling period
(an enumeration) and the three integer settings hold values of type int. -/
structure CANifierConfiguration where
  velocityMeasurementPeriod : CInt
  velocityMeasurementWindow : CInt
  clearPositionOnLimitF : Bool
  clearPositionOnLimitR : Bool
  clearPositionOnQuadIdx : Bool
  customParam0 : CInt
  customParam1 : CInt
  deriving DecidableEq, Repr

/-- PinValues: the structure filled by GetGeneralInputs. -/
structure PinValues where
  LIMF : Bool
  LIMR : Bool
  QUAD_A : Bool
  QUAD_B : Bool
  QUAD_IDX : Bool
  SCL : Bool
  SDA : Bool
  SPI_CLK_PWM0 : Bool
  SPI_MOSI_PWM1 : Bool
  SPI_MISO_PWM2 : Bool
  SPI_CS_PWM3 : Bool
  deriving DecidableEq, Repr

/-! ## The device link -/

/-- One call through the C link, with the arguments the wrapper passes
(the device handle `m_handle` is the same in every call and is left out).
`c_CANifier_GetStickyFaults` is the sticky-fault read of the link (section 6 of
the spec, `ReadBitmask` of kind stickyFaults); CANifier.cpp makes no call to it. -/
inductive Cmd where
  | c_CANifier_SetLEDOutput (dutyCycle : Int) (ledChannel : Int)
  | c_CANifier_SetPWMOutput (pwmChannel : Int) (dutyCyc10bit : Int)
  | c_CANifier_EnablePWMOutput (pwmChannel : Int) (bEnable : Bool)
  | c_CANifier_GetGeneralInputs
  | c_CANifier_ConfigVelocityMeasurementPeriod (period : Int) (timeoutMs : Int)
  | c_CANifier_ConfigVelocityMeasurementWindow (windowSize : Int) (timeoutMs : Int)
  | c_CANifier_ConfigClearPositionOnLimitF (clearPositionOnLimitF : Bool) (timeoutMs : Int)
  | c_CANifier_ConfigClearPositionOnLimitR (clearPositionOnLimitR : Bool) (timeoutMs : Int)
  | c_CANifier_ConfigClearPositionOnQuadIdx (clearPositionOnQuadIdx : Bool) (timeoutMs : Int)
  | c_CANifier_ConfigSetCustomParam (newValue : Int) (paramIndex : Int) (timeoutMs : Int)
  | c_CANifier_ConfigGetCustomParam (paramIndex : Int) (timeoutMs : Int)
  | c_CANifier_ConfigSetParameter (param : ParamEnum) (value : ℚ) (subValue : Nat)
      (ordinal : Int) (timeoutMs : Int)
  | c_CANifier_ConfigGetParameter (param : ParamEnum) (ordinal : Int) (timeoutMs : Int)
  | c_CANifier_GetFaults
  | c_CANifier_GetStickyFaults
  | c_CANifier_ConfigFactoryDefault (timeoutMs : Int)
  deriving DecidableEq, Repr

/-- The answer of the link to one call: the returned ErrorCode and the content
of the call's out-parameter after the call (`intOut` for an `int *`, `realOut`
for a `double *`, `pinsOut` for the `bool[]` of GetGeneralInputs). -/
structure Resp where
  err : ErrorCode
  intOut : Int
  realOut : ℚ
  pinsOut : List Bool
  deriving DecidableEq, Repr

/-- A device link over device states `σ`: any function that answers a call
and moves the device to its next state. -/
abbrev Link (σ : Type) := Cmd → σ → Resp × σ

/-- The device together with the log of the calls made so far. -/
structure World (σ : Type) where
  dev : σ
  trace : List (Cmd × Resp)

/-- Performs one call through the link and logs it. -/
def call {σ : Type} (L : Link σ) (c : Cmd) : StateM (World σ) Resp :=
  fun w => ((L c w.dev).1, ⟨(L c w.dev).2, w.trace ++ [(c, (L c w.dev).1)]⟩)

/-- The calls of a log, without the answers. -/
def cmds (tr : List (Cmd × Resp)) : List Cmd := tr.map Prod.fst

/-- The outcomes of a log, in issue order. -/
def outcomes (tr : List (Cmd × Resp)) : List ErrorCode := tr.map (fun p => p.2.err)

/-- A link whose outcomes are rewritten by `f`, everything else being equal. -/
def Link.mapErr {σ : Type} (f : ErrorCode → ErrorCode) (L : Link σ) : Link σ :=
  fun c s => ({ (L c s).1 with err := f (L c s).1.err }, (L c s).2)

/-! ## Conversions of the C++ language -/

/-- The truncation toward zero of a double: the value of the cast `(int) d`
whenever that value fits an int. -/
def toInt (d : ℚ) : Int := if 0 ≤ d then Int.floor d else Int.ceil d

/-- The cast `(int) d` of a double into a variable of type int: the truncation
toward zero when it fits an int.  When it does not fit, the behaviour is
undefined in C++; the int that results is left to the parameter `undef`
(INT_MIN on x86-64, the nearest bound on ARM). -/
def castInt (undef : ℚ → CInt) (d : ℚ) : CInt :=
  if h : IsInt32 (toInt d) then ⟨toInt d, h⟩ else undef d

/-- The result of an out-of-range cast on x86-64: INT_MIN for every operand. -/
def undefIntMin : ℚ → CInt := fun _ => ⟨-2147483648, by decide⟩

/-- The cast `(bool) d` of a double: the test `d != 0`. -/
def toBool (d : ℚ) : Bool := decide (d ≠ 0)

/-- Rounding of a rational to the nearest integer, a tie going to the even one. -/
def roundHalfEven (r : ℚ) : Int :=
  if r - ⌊r⌋ < 1 / 2 then ⌊r⌋
  else if 1 / 2 < r - ⌊r⌋ then ⌊r⌋ + 1
  else if ⌊r⌋ % 2 = 0 then ⌊r⌋ else ⌊r⌋ + 1

/-- The binary exponent of the last mantissa bit of the binary64 numbers next to
`q`: 52 below the exponent of `q`, which is at least -1022 (subnormal range). -/
def ulpExponent (q : ℚ) : Int := max (Int.log 2 |q|) (-1022) - 52

/-- The binary64 number nearest to `q`, a tie going to the even mantissa: the
result of an arithmetic operation on doubles whose exact value is `q`
(overflow to infinity is not modelled; the values here are at most 1023). -/
def roundDouble (q : ℚ) : ℚ :=
  roundHalfEven (q / 2 ^ ulpExponent q) * 2 ^ ulpExponent q

/-- The product `a * b` of two doubles. -/
def mulDouble (a b : ℚ) : ℚ := roundDouble (a * b)

/-! ## Outputs -/

/-- The local `dutyCycle` of SetLEDOutput (lines 58-64). -/
def SetLEDOutput_dutyCycle (percentOutput : ℚ) : Int :=
  let percentOutput := if percentOutput > 1 then 1 else percentOutput
  let percentOutput := if percentOutput < 0 then 0 else percentOutput
  toInt (mulDouble percentOutput 1023)

/-- CANifier::SetLEDOutput (lines 56-67). -/
def SetLEDOutput {σ : Type} (L : Link σ) (percentOutput : ℚ) (ledChannel : Int) :
    StateM (World σ) ErrorCode := do
  let dutyCycle := SetLEDOutput_dutyCycle percentOutput
  return (← call L (.c_CANifier_SetLEDOutput dutyCycle ledChannel)).err

/-- The local `dutyCyc10bit` of SetPWMOutput (lines 258-262 and 267). -/
def SetPWMOutput_dutyCyc10bit (dutyCycle : ℚ) : Int :=
  let dutyCycle := if dutyCycle < 0 then 0 else if dutyCycle > 1 then 1 else dutyCycle
  toInt (mulDouble 1023 dutyCycle)

/-- The channel index after the test `if (pwmChannel < 0) pwmChannel = 0`
(lines 263-265 and 281-283). -/
def clampChannel (pwmChannel : Int) : Int :=
  if pwmChannel < 0 then 0 else pwmChannel

/-- CANifier::SetPWMOutput (lines 257-271). -/
def SetPWMOutput {σ : Type} (L : Link σ) (pwmChannel : Int) (dutyCycle : ℚ) :
    StateM (World σ) ErrorCode := do
  let dutyCyc10bit := SetPWMOutput_dutyCyc10bit dutyCycle
  let pwmChannel := clampChannel pwmChannel
  return (← call L (.c_CANifier_SetPWMOutput pwmChannel dutyCyc10bit)).err

/-- CANifier::EnablePWMOutput (lines 280-287). -/
def EnablePWMOutput {σ : Type} (L : Link σ) (pwmChannel : Int) (bEnable : Bool) :
    StateM (World σ) ErrorCode := do
  let pwmChannel := clampChannel pwmChannel
  return (← call L (.c_CANifier_EnablePWMOutput pwmChannel bEnable)).err

/-! ## General inputs (lines 97-111) -/

/-- The enumerators of GeneralPin that GetGeneralInputs uses as indices into
`_tempPins`.  The enumeration is declared in CANifier.h, which is not among the
sources: the value of each enumerator is a parameter `pin : GeneralPin → Nat` of
the functions below. -/
inductive GeneralPin where
  | QUAD_IDX
  | QUAD_B
  | QUAD_A
  | LIMR
  | LIMF
  | SDA
  | SCL
  | SPI_CS
  | SPI_MISO_PWM2P
  | SPI_MOSI_PWM1P
  | SPI_CLK_PWM0P
  deriving DecidableEq, Repr

/-- The read `_tempPins[i]` of the buffer filled by the link; a position beyond
the answered list reads as false. -/
def pinAt (_tempPins : List Bool) (i : Nat) : Bool := _tempPins.getD i false

/-- CANifier::GetGeneralInputs (lines 97-111): one call through the link (the
buffer `_tempPins` and its size are the same in every call), then the eleven
fields of `allPins` are overwritten in turn. -/
def GetGeneralInputs {σ : Type} (L : Link σ) (pin : GeneralPin → Nat) (allPins : PinValues) :
    StateM (World σ) (ErrorCode × PinValues) := do
  let r ← call L .c_CANifier_GetGeneralInputs
  let err := r.err
  let _tempPins := r.pinsOut
  let mut allPins := allPins
  allPins := { allPins with LIMF := pinAt _tempPins (pin .LIMF) }
  allPins := { allPins with LIMR := pinAt _tempPins (pin .LIMR) }
  allPins := { allPins with QUAD_A := pinAt _tempPins (pin .QUAD_A) }
  allPins := { allPins with QUAD_B := pinAt _tempPins (pin .QUAD_B) }
  allPins := { allPins with QUAD_IDX := pinAt _tempPins (pin .QUAD_IDX) }
  allPins := { allPins with SCL := pinAt _tempPins (pin .SCL) }
  allPins := { allPins with SDA := pinAt _tempPins (pin .SDA) }
  allPins := { allPins with SPI_CLK_PWM0 := pinAt _tempPins (pin .SPI_CLK_PWM0P) }
  allPins := { allPins with SPI_MOSI_PWM1 := pinAt _tempPins (pin .SPI_MOSI_PWM1P) }
  allPins := { allPins with SPI_MISO_PWM2 := pinAt _tempPins (pin .SPI_MISO_PWM2P) }
  allPins := { allPins with SPI_CS_PWM3 := pinAt _tempPins (pin .SPI_CS) }
  return (err, allPins)

/-- The field of PinValues that GetGeneralInputs fills from the position of an
enumerator (the table of lines 99-109). -/
def PinValues.fieldOf (v : PinValues) : GeneralPin → Bool
  | .LIMF => v.LIMF
  | .LIMR => v.LIMR
  | .QUAD_A => v.QUAD_A
  | .QUAD_B => v.QUAD_B
  | .QUAD_IDX => v.QUAD_IDX
  | .SCL => v.SCL
  | .SDA => v.SDA
  | .SPI_CLK_PWM0P => v.SPI_CLK_PWM0
  | .SPI_MOSI_PWM1P => v.SPI_MOSI_PWM1
  | .SPI_MISO_PWM2P => v.SPI_MISO_PWM2
  | .SPI_CS => v.SPI_CS_PWM3

/-- The eleven fields of a PinValues, as a list. -/
def PinValues.fields (v : PinValues) : List Bool :=
  [v.LIMF, v.LIMR, v.QUAD_A, v.QUAD_B, v.QUAD_IDX, v.SCL, v.SDA, v.SPI_CLK_PWM0,
   v.SPI_MOSI_PWM1, v.SPI_MISO_PWM2, v.SPI_CS_PWM3]

/-- Modelled from the spec: the values of the enumerators of GeneralPin are not
among the sources; section 4.5 requires of the table of positions that no two
named fields share a position. -/
def DistinctPositions (pin : GeneralPin → Nat) : Prop := Function.Injective pin

/-- A table of positions for the examples: the enumerators numbered from 0 to 10
in the order of their declaration above. -/
def samplePin : GeneralPin → Nat
  | .QUAD_IDX => 0
  | .QUAD_B => 1
  | .QUAD_A => 2
  | .LIMR => 3
  | .LIMF => 4
  | .SDA => 5
  | .SCL => 6
  | .SPI_CS => 7
  | .SPI_MISO_PWM2P => 8
  | .SPI_MOSI_PWM1P => 9
  | .SPI_CLK_PWM0P => 10

/-- A raw pin read in which position 4 alone is set. -/
def sampleRawPins : List Bool :=
  [false, false, false, false, true, false, false, false, false, false, false]

/-- A PinValues with every field false. -/
def PinValues.clear : PinValues :=
  { LIMF := false, LIMR := false, QUAD_A := false, QUAD_B := false, QUAD_IDX := false,
    SCL := false, SDA := false, SPI_CLK_PWM0 := false, SPI_MOSI_PWM1 := false,
    SPI_MISO_PWM2 := false, SPI_CS_PWM3 := false }

/-- The double 1127000493261825 * 2^-60, just below 1/1023: its exact product
with 1023 is 1 - 2^-60. -/
def dutyJustBelowStep : ℚ := 1127000493261825 / 1152921504606846976

/-! ## Configuration setters (lines 164-225, 319-322, 590-592) -/

/-- CANifier::ConfigVelocityMeasurementPeriod (lines 164-166). -/
def ConfigVelocityMeasurementPeriod {σ : Type} (L : Link σ) (period : Int) (timeoutMs : Int) :
    StateM (World σ) ErrorCode := do
  return (← call L (.c_CANifier_ConfigVelocityMeasurementPeriod period timeoutMs)).err

/-- CANifier::ConfigVelocityMeasurementWindow (lines 181-183). -/
def ConfigVelocityMeasurementWindow {σ : Type} (L : Link σ) (windowSize : Int)
    (timeoutMs : Int) : StateM (World σ) ErrorCode := do
  return (← call L (.c_CANifier_ConfigVelocityMeasurementWindow windowSize timeoutMs)).err

/-- CANifier::ConfigClearPositionOnLimitF (lines 195-197). -/
def ConfigClearPositionOnLimitF {σ : Type} (L : Link σ) (clearPositionOnLimitF : Bool)
    (timeoutMs : Int) : StateM (World σ) ErrorCode := do
  return (← call L (.c_CANifier_ConfigClearPositionOnLimitF clearPositionOnLimitF timeoutMs)).err

/-- CANifier::ConfigClearPositionOnLimitR (lines 209-211). -/
def ConfigClearPositionOnLimitR {σ : Type} (L : Link σ) (clearPositionOnLimitR : Bool)
    (timeoutMs : Int) : StateM (World σ) ErrorCode := do
  return (← call L (.c_CANifier_ConfigClearPositionOnLimitR clearPositionOnLimitR timeoutMs)).err

/-- CANifier::ConfigClearPositionOnQuadIdx (lines 223-225). -/
def ConfigClearPositionOnQuadIdx {σ : Type} (L : Link σ) (clearPositionOnQuadIdx : Bool)
    (timeoutMs : Int) : StateM (World σ) ErrorCode := do
  return (← call L (.c_CANifier_ConfigClearPositionOnQuadIdx clearPositionOnQuadIdx timeoutMs)).err

/-- CANifier::ConfigSetCustomParam (lines 319-322). -/
def ConfigSetCustomParam {σ : Type} (L : Link σ) (newValue : Int) (paramIndex : Int)
    (timeoutMs : Int) : StateM (World σ) ErrorCode := do
  return (← call L (.c_CANifier_ConfigSetCustomParam newValue paramIndex timeoutMs)).err

/-- CANifier::ConfigFactoryDefault (lines 590-592). -/
def ConfigFactoryDefault {σ : Type} (L : Link σ) (timeoutMs : Int) :
    StateM (World σ) ErrorCode := do
  return (← call L (.c_CANifier_ConfigFactoryDefault timeoutMs)).err

/-! ## Parameter getters (lines 338-343, 389-393) -/

/-- CANifier::ConfigGetCustomParam (lines 338-343): the outcome of the link call
is dropped, the content of `readValue` is returned. -/
def ConfigGetCustomParam {σ : Type} (L : Link σ) (paramIndex : Int) (timeoutMs : Int) :
    StateM (World σ) Int := do
  let r ← call L (.c_CANifier_ConfigGetCustomParam paramIndex timeoutMs)
  let readValue := r.intOut
  return readValue

/-- CANifier::ConfigGetParameter, the three-argument overload (lines 389-393):
the outcome of the link call is dropped, the content of `value` is returned. -/
def ConfigGetParameter {σ : Type} (L : Link σ) (param : ParamEnum) (ordinal : Int)
    (timeoutMs : Int) : StateM (World σ) ℚ := do
  let r ← call L (.c_CANifier_ConfigGetParameter param ordinal timeoutMs)
  let value := r.realOut
  return value

/-! ## Faults (lines 504-522) -/

/-- CANifier::GetFaults (lines 504-509).  The constructor `CANifierFaults(bits)`
is declared outside this file and is a parameter. -/
def GetFaults {σ F : Type} (L : Link σ) (CANifierFaults : Int → F) :
    StateM (World σ) (ErrorCode × F) := do
  let r ← call L .c_CANifier_GetFaults
  let faultBits := r.intOut
  let retval := r.err
  let toFill := CANifierFaults faultBits
  return (retval, toFill)

/-- CANifier::GetStickyFaults (lines 517-522): the link function called is
`c_CANifier_GetFaults`, as in GetFaults.  The constructor
`CANifierStickyFaults(bits)` is declared outside this file and is a parameter. -/
def GetStickyFaults {σ F : Type} (L : Link σ) (CANifierStickyFaults : Int → F) :
    StateM (World σ) (ErrorCode × F) := do
  let r ← call L .c_CANifier_GetFaults
  let faultBits := r.intOut
  let retval := r.err
  let toFill := CANifierStickyFaults faultBits
  return (retval, toFill)

/-! ## ErrorCollection and the comparisons with the default configuration -/

/-- Modelled from the spec: the class ErrorCollection (its header is not among
the sources).  Section 4.3: the state is `worst`, initialised to "no error". -/
structure ErrorCollection where
  _worstError : ErrorCode := OK
  deriving DecidableEq, Repr

/-- Modelled from the spec: ErrorCollection::NewError (its header is not among
the sources).  Section 4.3, `Record(outcome)`: if `outcome` is worse than `worst`
under the ranking, `worst` is replaced.  The ranking is the parameter `rank`
(a larger rank is worse). -/
def ErrorCollection.NewError (rank : ErrorCode → Nat) (ec : ErrorCollection)
    (err : ErrorCode) : ErrorCollection :=
  if rank ec._worstError < rank err then { _worstError := err } else ec

/-- Modelled from the spec: the requirement of section 3 on the ranking of
outcomes, "no error" is the unique minimum. -/
def OKIsUniqueMinimum (rank : ErrorCode → Nat) : Prop :=
  ∀ e : ErrorCode, rank e = 0 ↔ e = OK

/-- Modelled from the spec: the ranking "first-seen failure wins" that section
4.3 names as a reasonable choice: every failure ranks the same, above OK. -/
def firstSeenRank (e : ErrorCode) : Nat := if e = OK then 0 else 1

/-- Modelled from the spec: the aggregate of a sequence of outcomes, each
recorded in turn into a fresh ErrorCollection. -/
def aggregate (rank : ErrorCode → Nat) (es : List ErrorCode) : ErrorCode :=
  (es.foldl (ErrorCollection.NewError rank) {})._worstError

/-- Modelled from the spec: CANifierConfigUtils::VelocityMeasurementPeriodDifferent
(declared in CANifier.h, not among the sources).  Section 4.4 step 2: the desired
field is compared with the field of the default configuration by exact equality.
The default configuration `_default` is a parameter. -/
def VelocityMeasurementPeriodDifferent (_default settings : CANifierConfiguration) : Bool :=
  !(settings.velocityMeasurementPeriod == _default.velocityMeasurementPeriod)

/-- Modelled from the spec: CANifierConfigUtils::VelocityMeasurementWindowDifferent
(declared in CANifier.h, not among the sources), as above. -/
def VelocityMeasurementWindowDifferent (_default settings : CANifierConfiguration) : Bool :=
  !(settings.velocityMeasurementWindow == _default.velocityMeasurementWindow)

/-- Modelled from the spec: CANifierConfigUtils::ClearPositionOnLimitFDifferent
(declared in CANifier.h, not among the sources), as above. -/
def ClearPositionOnLimitFDifferent (_default settings : CANifierConfiguration) : Bool :=
  !(settings.clearPositionOnLimitF == _default.clearPositionOnLimitF)

/-- Modelled from the spec: CANifierConfigUtils::ClearPositionOnLimitRDifferent
(declared in CANifier.h, not among the sources), as above. -/
def ClearPositionOnLimitRDifferent (_default settings : CANifierConfiguration) : Bool :=
  !(settings.clearPositionOnLimitR == _default.clearPositionOnLimitR)

/-- Modelled from the spec: CANifierConfigUtils::ClearPositionOnQuadIdxDifferent
(declared in CANifier.h, not among the sources), as above. -/
def ClearPositionOnQuadIdxDifferent (_default settings : CANifierConfiguration) : Bool :=
  !(settings.clearPositionOnQuadIdx == _default.clearPositionOnQuadIdx)

/-- Modelled from the spec: CANifierConfigUtils::CustomParam0Different
(declared in CANifier.h, not among the sources), as above. -/
def CustomParam0Different (_default settings : CANifierConfiguration) : Bool :=
  !(settings.customParam0 == _default.customParam0)

/-- Modelled from the spec: CANifierConfigUtils::CustomParam1Different
(declared in CANifier.h, not among the sources), as above. -/
def CustomParam1Different (_default settings : CANifierConfiguration) : Bool :=
  !(settings.customParam1 == _default.customParam1)

/-! ## ConfigAllSettings and GetAllConfigs (lines 543-578) -/

/-- CANifier::ConfigAllSettings (lines 543-557). -/
def ConfigAllSettings {σ : Type} (L : Link σ) (rank : ErrorCode → Nat)
    (_default : CANifierConfiguration) (allConfigs : CANifierConfiguration) (timeoutMs : Int) :
    StateM (World σ) ErrorCode := do
  let mut errorCollection : ErrorCollection := {}
  errorCollection := errorCollection.NewError rank (← ConfigFactoryDefault L timeoutMs)
  if VelocityMeasurementPeriodDifferent _default allConfigs then
    errorCollection := errorCollection.NewError rank
      (← ConfigVelocityMeasurementPeriod L allConfigs.velocityMeasurementPeriod timeoutMs)
  if VelocityMeasurementWindowDifferent _default allConfigs then
    errorCollection := errorCollection.NewError rank
      (← ConfigVelocityMeasurementWindow L allConfigs.velocityMeasurementWindow timeoutMs)
  if ClearPositionOnLimitFDifferent _default allConfigs then
    errorCollection := errorCollection.NewError rank
      (← ConfigClearPositionOnLimitF L allConfigs.clearPositionOnLimitF timeoutMs)
  if ClearPositionOnLimitRDifferent _default allConfigs then
    errorCollection := errorCollection.NewError rank
      (← ConfigClearPositionOnLimitR L allConfigs.clearPositionOnLimitR timeoutMs)
  if ClearPositionOnQuadIdxDifferent _default allConfigs then
    errorCollection := errorCollection.NewError rank
      (← ConfigClearPositionOnQuadIdx L allConfigs.clearPositionOnQuadIdx timeoutMs)
  if CustomParam0Different _default allConfigs then
    errorCollection := errorCollection.NewError rank
      (← ConfigSetCustomParam L allConfigs.customParam0 0 timeoutMs)
  if CustomParam1Different _default allConfigs then
    errorCollection := errorCollection.NewError rank
      (← ConfigSetCustomParam L allConfigs.customParam1 1 timeoutMs)
  return errorCollection._worstError

/-- CANifier::GetAllConfigs (lines 568-578): the seven fields of `allConfigs`
are overwritten in turn, each from its own read; `undef` is the result of a cast
`(int)` whose operand does not fit an int. -/
def GetAllConfigs {σ : Type} (L : Link σ) (undef : ℚ → CInt)
    (allConfigs : CANifierConfiguration) (timeoutMs : Int) :
    StateM (World σ) CANifierConfiguration := do
  let mut allConfigs := allConfigs
  let velocityMeasurementPeriod :=
    castInt undef (← ConfigGetParameter L .eSampleVelocityPeriod 0 timeoutMs)
  allConfigs := { allConfigs with velocityMeasurementPeriod := velocityMeasurementPeriod }
  let velocityMeasurementWindow :=
    castInt undef (← ConfigGetParameter L .eSampleVelocityWindow 0 timeoutMs)
  allConfigs := { allConfigs with velocityMeasurementWindow := velocityMeasurementWindow }
  let clearPositionOnLimitF := toBool (← ConfigGetParameter L .eClearPositionOnLimitF 0 timeoutMs)
  allConfigs := { allConfigs with clearPositionOnLimitF := clearPositionOnLimitF }
  let clearPositionOnLimitR := toBool (← ConfigGetParameter L .eClearPositionOnLimitR 0 timeoutMs)
  allConfigs := { allConfigs with clearPositionOnLimitR := clearPositionOnLimitR }
  let clearPositionOnQuadIdx := toBool (← ConfigGetParameter L .eClearPositionOnQuadIdx 0 timeoutMs)
  allConfigs := { allConfigs with clearPositionOnQuadIdx := clearPositionOnQuadIdx }
  let customParam0 := castInt undef (← ConfigGetParameter L .eCustomParam 0 timeoutMs)
  allConfigs := { allConfigs with customParam0 := customParam0 }
  let customParam1 := castInt undef (← ConfigGetParameter L .eCustomParam 1 timeoutMs)
  allConfigs := { allConfigs with customParam1 := customParam1 }
  return allConfigs

/-! ## Call sequences

The definitions below describe what a run is expected to do; the functions above
are compared with them. -/

/-- The log produced by issuing the calls of a list one after the other. -/
def replies {σ : Type} (L : Link σ) : List Cmd → σ → List (Cmd × Resp)
  | [], _ => []
  | c :: cs, s => (c, (L c s).1) :: replies L cs (L c s).2

/-- The device state after the calls of a list. -/
def devAfter {σ : Type} (L : Link σ) : List Cmd → σ → σ
  | [], s => s
  | c :: cs, s => devAfter L cs (L c s).2

/-- Issues the calls of a list one after the other, recording each outcome in
the error collection. -/
def exec {σ : Type} (L : Link σ) (rank : ErrorCode → Nat) :
    List Cmd → ErrorCollection × World σ → ErrorCollection × World σ
  | [], s => s
  | c :: cs, s => exec L rank cs (s.1.NewError rank (call L c s.2).1.err, (call L c s.2).2)

/-- The setter calls expected of ConfigAllSettings after the reset: in the order
of the source, the setter of each field whose desired value differs from the
default, with the desired value and the caller's timeout. -/
def fieldWrites (d c : CANifierConfiguration) (t : Int) : List Cmd :=
  (if c.velocityMeasurementPeriod ≠ d.velocityMeasurementPeriod then
    [Cmd.c_CANifier_ConfigVelocityMeasurementPeriod c.velocityMeasurementPeriod t] else []) ++
  (if c.velocityMeasurementWindow ≠ d.velocityMeasurementWindow then
    [Cmd.c_CANifier_ConfigVelocityMeasurementWindow c.velocityMeasurementWindow t] else []) ++
  (if c.clearPositionOnLimitF ≠ d.clearPositionOnLimitF then
    [Cmd.c_CANifier_ConfigClearPositionOnLimitF c.clearPositionOnLimitF t] else []) ++
  (if c.clearPositionOnLimitR ≠ d.clearPositionOnLimitR then
    [Cmd.c_CANifier_ConfigClearPositionOnLimitR c.clearPositionOnLimitR t] else []) ++
  (if c.clearPositionOnQuadIdx ≠ d.clearPositionOnQuadIdx then
    [Cmd.c_CANifier_ConfigClearPositionOnQuadIdx c.clearPositionOnQuadIdx t] else []) ++
  (if c.customParam0 ≠ d.customParam0 then
    [Cmd.c_CANifier_ConfigSetCustomParam c.customParam0 0 t] else []) ++
  (if c.customParam1 ≠ d.customParam1 then
    [Cmd.c_CANifier_ConfigSetCustomParam c.customParam1 1 t] else [])

/-- The number of fields, out of seven, in which two configurations differ. -/
def diffCount (d c : CANifierConfiguration) : Nat :=
  (if c.velocityMeasurementPeriod ≠ d.velocityMeasurementPeriod then 1 else 0) +
  (if c.velocityMeasurementWindow ≠ d.velocityMeasurementWindow then 1 else 0) +
  (if c.clearPositionOnLimitF ≠ d.clearPositionOnLimitF then 1 else 0) +
  (if c.clearPositionOnLimitR ≠ d.clearPositionOnLimitR then 1 else 0) +
  (if c.clearPositionOnQuadIdx ≠ d.clearPositionOnQuadIdx then 1 else 0) +
  (if c.customParam0 ≠ d.customParam0 then 1 else 0) +
  (if c.customParam1 ≠ d.customParam1 then 1 else 0)

/-- Recognises the factory-default reset. -/
def Cmd.isFactoryDefault : Cmd → Bool
  | .c_CANifier_ConfigFactoryDefault _ => true
  | _ => false

/-- Recognises the field-level writes: the setters of the configuration fields
and the generic parameter write. -/
def Cmd.isFieldWrite : Cmd → Bool
  | .c_CANifier_ConfigVelocityMeasurementPeriod _ _ => true
  | .c_CANifier_ConfigVelocityMeasurementWindow _ _ => true
  | .c_CANifier_ConfigClearPositionOnLimitF _ _ => true
  | .c_CANifier_ConfigClearPositionOnLimitR _ _ => true
  | .c_CANifier_ConfigClearPositionOnQuadIdx _ _ => true
  | .c_CANifier_ConfigSetCustomParam _ _ _ => true
  | .c_CANifier_ConfigSetParameter _ _ _ _ _ => true
  | _ => false

/-- The seven reads expected of GetAllConfigs, in the order of the source. -/
def configReads (t : Int) : List Cmd :=
  [.c_CANifier_ConfigGetParameter .eSampleVelocityPeriod 0 t,
   .c_CANifier_ConfigGetParameter .eSampleVelocityWindow 0 t,
   .c_CANifier_ConfigGetParameter .eClearPositionOnLimitF 0 t,
   .c_CANifier_ConfigGetParameter .eClearPositionOnLimitR 0 t,
   .c_CANifier_ConfigGetParameter .eClearPositionOnQuadIdx 0 t,
   .c_CANifier_ConfigGetParameter .eCustomParam 0 t,
   .c_CANifier_ConfigGetParameter .eCustomParam 1 t]

/-- The configuration rebuilt from the values of seven answers: the cast to
int for the integer fields, the non-zero test for the boolean fields. -/
def configOfValues (undef : ℚ → CInt) : List ℚ → Option CANifierConfiguration
  | [v1, v2, v3, v4, v5, v6, v7] =>
      some ⟨castInt undef v1, castInt undef v2, toBool v3, toBool v4, toBool v5,
        castInt undef v6, castInt undef v7⟩
  | _ => none

/-! ## A device that honours parameter semantics -/

/-- The parameter store of a device: the value held under each {kind, ordinal}. -/
abbrev Store := ParamEnum → Int → ℚ

/-- A boolean setting as a parameter value. -/
def ofBool (b : Bool) : ℚ := if b then 1 else 0

/-- The address {kind, ordinal} and the value that a setter call writes. -/
def Cmd.written : Cmd → Option (ParamEnum × Int × ℚ)
  | .c_CANifier_ConfigVelocityMeasurementPeriod period _ =>
      some (.eSampleVelocityPeriod, 0, period)
  | .c_CANifier_ConfigVelocityMeasurementWindow windowSize _ =>
      some (.eSampleVelocityWindow, 0, windowSize)
  | .c_CANifier_ConfigClearPositionOnLimitF b _ => some (.eClearPositionOnLimitF, 0, ofBool b)
  | .c_CANifier_ConfigClearPositionOnLimitR b _ => some (.eClearPositionOnLimitR, 0, ofBool b)
  | .c_CANifier_ConfigClearPositionOnQuadIdx b _ => some (.eClearPositionOnQuadIdx, 0, ofBool b)
  | .c_CANifier_ConfigSetCustomParam newValue paramIndex _ =>
      some (.eCustomParam, paramIndex, newValue)
  | .c_CANifier_ConfigSetParameter param value _ ordinal _ => some (param, ordinal, value)
  | _ => none

/-- A store updated at one address. -/
def Store.set (st : Store) (p : ParamEnum) (o : Int) (v : ℚ) : Store :=
  fun p' o' => if p' = p ∧ o' = o then v else st p' o'

/-- The store after a list of accepted writes. -/
def applyWrites : List Cmd → Store → Store
  | [], st => st
  | c :: cs, st =>
    match c.written with
    | some (p, o, v) => applyWrites cs (st.set p o v)
    | none => applyWrites cs st

/-- The store that holds a configuration, field by field, under the addresses
that GetAllConfigs reads. -/
def storeOf (c : CANifierConfiguration) : Store
  | .eSampleVelocityPeriod, _ => (c.velocityMeasurementPeriod : Int)
  | .eSampleVelocityWindow, _ => (c.velocityMeasurementWindow : Int)
  | .eClearPositionOnLimitF, _ => ofBool c.clearPositionOnLimitF
  | .eClearPositionOnLimitR, _ => ofBool c.clearPositionOnLimitR
  | .eClearPositionOnQuadIdx, _ => ofBool c.clearPositionOnQuadIdx
  | .eCustomParam, o => if o = 0 then (c.customParam0 : Int) else (c.customParam1 : Int)

/-- The seven addresses of the configuration fields. -/
def configAddresses : List (ParamEnum × Int) :=
  [(.eSampleVelocityPeriod, 0), (.eSampleVelocityWindow, 0), (.eClearPositionOnLimitF, 0),
   (.eClearPositionOnLimitR, 0), (.eClearPositionOnQuadIdx, 0), (.eCustomParam, 0),
   (.eCustomParam, 1)]

/-- A device honours parameter semantics, with `stored s` the parameter store of
the device in state `s`, when
* an accepted factory reset establishes the defaults under the seven addresses,
* an accepted write stores its value under its address and nothing else,
* a read returns what is stored and leaves the store as it is. -/
structure HonoursParameterSemantics {σ : Type} (L : Link σ) (stored : σ → Store)
    (_default : CANifierConfiguration) : Prop where
  reset : ∀ (t : Int) (s : σ), (L (.c_CANifier_ConfigFactoryDefault t) s).1.err = OK →
    ∀ p o, (p, o) ∈ configAddresses →
      stored (L (.c_CANifier_ConfigFactoryDefault t) s).2 p o = storeOf _default p o
  write : ∀ (c : Cmd) (s : σ) (p : ParamEnum) (o : Int) (v : ℚ), c.written = some (p, o, v) →
    (L c s).1.err = OK → stored (L c s).2 = (stored s).set p o v
  read : ∀ (p : ParamEnum) (o t : Int) (s : σ),
    (L (.c_CANifier_ConfigGetParameter p o t) s).1.realOut = stored s p o ∧
    stored (L (.c_CANifier_ConfigGetParameter p o t) s).2 = stored s

/-! ## Concrete devices and configurations -/

/-- A device that is nothing but its parameter store: every call is accepted. -/
def storeLink (_default : CANifierConfiguration) : Link Store
  | .c_CANifier_ConfigFactoryDefault _, _ => (⟨OK, 0, 0, []⟩, storeOf _default)
  | .c_CANifier_ConfigGetParameter p o _, st => (⟨OK, 0, st p o, []⟩, st)
  | c, st =>
    match c.written with
    | some (p, o, v) => (⟨OK, 0, 0, []⟩, st.set p o v)
    | none => (⟨OK, 0, 0, []⟩, st)

/-- A device without state that gives the same answer to every call. -/
def constLink (r : Resp) : Link Unit := fun _ s => (r, s)

/-- A device whose state is its pair of bitmasks (current faults, sticky faults);
each of the two reads returns its own mask. -/
def faultsLink : Link (Int × Int)
  | .c_CANifier_GetFaults, s => (⟨OK, s.1, 0, []⟩, s)
  | .c_CANifier_GetStickyFaults, s => (⟨OK, s.2, 0, []⟩, s)
  | _, s => (⟨OK, 0, 0, []⟩, s)

/-- A default configuration, for the examples. -/
def sampleDefault : CANifierConfiguration :=
  { velocityMeasurementPeriod := 100, velocityMeasurementWindow := 64,
    clearPositionOnLimitF := false, clearPositionOnLimitR := false,
    clearPositionOnQuadIdx := false, customParam0 := 0, customParam1 := 0 }

/-- A desired configuration that differs from `sampleDefault` in three fields. -/
def sampleConfig : CANifierConfiguration :=
  { velocityMeasurementPeriod := 100, velocityMeasurementWindow := 32,
    clearPositionOnLimitF := true, clearPositionOnLimitR := false,
    clearPositionOnQuadIdx := false, customParam0 := 0, customParam1 := 7 }

/-- The world in which nothing has been sent yet. -/
def World.start {σ : Type} (s : σ) : World σ := { dev := s, trace := [] }

/-! ## Numeric lemmas: rounding to binary64 -/

theorem roundHalfEven_intCast (n : Int) : roundHalfEven (n : ℚ) = n := by
  unfold roundHalfEven
  simp

theorem floor_le_roundHalfEven (r : ℚ) : ⌊r⌋ ≤ roundHalfEven r := by
  unfold roundHalfEven
  split_ifs <;> omega

theorem roundHalfEven_le_floor_add_one (r : ℚ) : roundHalfEven r ≤ ⌊r⌋ + 1 := by
  unfold roundHalfEven
  split_ifs <;> omega

theorem roundHalfEven_mono {a b : ℚ} (h : a ≤ b) : roundHalfEven a ≤ roundHalfEven b := by
  rcases (Int.floor_mono h).lt_or_eq with hlt | heq
  · calc roundHalfEven a ≤ ⌊a⌋ + 1 := roundHalfEven_le_floor_add_one a
      _ ≤ ⌊b⌋ := hlt
      _ ≤ roundHalfEven b := floor_le_roundHalfEven b
  · unfold roundHalfEven
    rw [heq]
    have hab : a - ⌊b⌋ ≤ b - ⌊b⌋ := by linarith
    split_ifs <;> first | omega | (exfalso; linarith)

theorem log_two_eq {q : ℚ} {k : Int} (h1 : (2 : ℚ) ^ k ≤ q) (h2 : q < (2 : ℚ) ^ (k + 1)) :
    Int.log 2 q = k := by
  have hq : 0 < q := lt_of_lt_of_le (by positivity) h1
  apply le_antisymm
  · have := (Int.lt_zpow_iff_log_lt (b := 2) (by norm_num) hq).mp (by exact_mod_cast h2)
    omega
  · exact (Int.zpow_le_iff_le_log (b := 2) (by norm_num) hq).mp (by exact_mod_cast h1)

theorem roundDouble_zero : roundDouble 0 = 0 := by
  unfold roundDouble
  simp [roundHalfEven]

theorem roundDouble_1023 : roundDouble 1023 = 1023 := by
  have hlog : Int.log 2 |(1023 : ℚ)| = 9 := by
    rw [abs_of_nonneg (by norm_num)]
    exact log_two_eq (by norm_num) (by norm_num)
  have he : ulpExponent 1023 = -43 := by
    unfold ulpExponent
    rw [hlog]; rfl
  unfold roundDouble
  rw [he]
  have : (1023 : ℚ) / 2 ^ (-43 : Int) = ((1023 * 2 ^ 43 : Int) : ℚ) := by
    norm_num [zpow_neg]
  rw [this, roundHalfEven_intCast]
  norm_num [zpow_neg]

theorem roundHalfEven_nonneg {r : ℚ} (h : 0 ≤ r) : 0 ≤ roundHalfEven r :=
  le_trans (Int.floor_nonneg.mpr h) (floor_le_roundHalfEven r)

theorem roundDouble_nonneg {q : ℚ} (h : 0 ≤ q) : 0 ≤ roundDouble q := by
  unfold roundDouble
  have h2 : (0 : ℚ) < 2 ^ ulpExponent q := by positivity
  have : 0 ≤ roundHalfEven (q / 2 ^ ulpExponent q) := roundHalfEven_nonneg (div_nonneg h h2.le)
  exact mul_nonneg (by exact_mod_cast this) h2.le

theorem roundDouble_le_pow {a : ℚ} (ha : 0 < a) :
    roundDouble a ≤ (2 : ℚ) ^ (ulpExponent a + 53) := by
  have h2 : (0 : ℚ) < 2 ^ ulpExponent a := by positivity
  have hlt : a < (2 : ℚ) ^ (Int.log 2 a + 1) := by
    exact_mod_cast Int.lt_zpow_succ_log_self (b := 2) (by norm_num) a
  have hle : (2 : ℚ) ^ (Int.log 2 a + 1) ≤ (2 : ℚ) ^ (ulpExponent a + 53) := by
    apply zpow_le_zpow_right₀ (by norm_num)
    unfold ulpExponent
    rw [abs_of_pos ha]
    have := le_max_left (Int.log 2 a) (-1022)
    omega
  have hdiv : a / 2 ^ ulpExponent a ≤ ((2 ^ 53 : Int) : ℚ) := by
    rw [div_le_iff₀ h2]
    have : (2 : ℚ) ^ (ulpExponent a + 53) = ((2 ^ 53 : Int) : ℚ) * 2 ^ ulpExponent a := by
      rw [zpow_add₀ (by norm_num), mul_comm]
      norm_num
    linarith
  have hr := roundHalfEven_mono hdiv
  rw [roundHalfEven_intCast] at hr
  unfold roundDouble
  have : (2 : ℚ) ^ (ulpExponent a + 53) = ((2 ^ 53 : Int) : ℚ) * 2 ^ ulpExponent a := by
    rw [zpow_add₀ (by norm_num), mul_comm]
    norm_num
  rw [this]
  exact mul_le_mul_of_nonneg_right (by exact_mod_cast hr) h2.le

theorem pow_le_roundDouble {b : ℚ} (hb : 0 < b) (hn : -1022 ≤ Int.log 2 b) :
    (2 : ℚ) ^ (ulpExponent b + 52) ≤ roundDouble b := by
  have h2 : (0 : ℚ) < 2 ^ ulpExponent b := by positivity
  have he : ulpExponent b + 52 = Int.log 2 b := by
    unfold ulpExponent
    rw [abs_of_pos hb, max_eq_left hn]
    omega
  have hle : (2 : ℚ) ^ (Int.log 2 b) ≤ b := by
    exact_mod_cast Int.zpow_log_le_self (b := 2) (by norm_num) hb
  have hpow : (2 : ℚ) ^ (ulpExponent b + 52) = ((2 ^ 52 : Int) : ℚ) * 2 ^ ulpExponent b := by
    rw [zpow_add₀ (by norm_num), mul_comm]
    norm_num
  have hdiv : ((2 ^ 52 : Int) : ℚ) ≤ b / 2 ^ ulpExponent b := by
    rw [le_div_iff₀ h2, ← hpow, he]
    exact hle
  have hr := roundHalfEven_mono hdiv
  rw [roundHalfEven_intCast] at hr
  unfold roundDouble
  rw [hpow]
  exact mul_le_mul_of_nonneg_right (by exact_mod_cast hr) h2.le

theorem roundDouble_mono_nonneg {a b : ℚ} (ha : 0 ≤ a) (hab : a ≤ b) :
    roundDouble a ≤ roundDouble b := by
  rcases ha.eq_or_lt with rfl | hpos
  · rw [roundDouble_zero]
    exact roundDouble_nonneg hab
  · have hb : 0 < b := lt_of_lt_of_le hpos hab
    have hlog : Int.log 2 a ≤ Int.log 2 b := Int.log_mono_right hpos hab
    have hea : ulpExponent a = max (Int.log 2 a) (-1022) - 52 := by
      unfold ulpExponent; rw [abs_of_pos hpos]
    have heb : ulpExponent b = max (Int.log 2 b) (-1022) - 52 := by
      unfold ulpExponent; rw [abs_of_pos hb]
    have hmax : max (Int.log 2 a) (-1022) ≤ max (Int.log 2 b) (-1022) := max_le_max hlog le_rfl
    rcases hmax.eq_or_lt with heq | hlt
    · have he : ulpExponent a = ulpExponent b := by rw [hea, heb, heq]
      unfold roundDouble
      rw [he]
      have h2 : (0 : ℚ) < 2 ^ ulpExponent b := by positivity
      have hr := roundHalfEven_mono (div_le_div_of_nonneg_right hab h2.le)
      exact mul_le_mul_of_nonneg_right (by exact_mod_cast hr) h2.le
    · have hn : -1022 ≤ Int.log 2 b := by
        by_contra hcon
        rw [max_eq_right (by omega : Int.log 2 b ≤ -1022)] at hlt
        have := le_max_right (Int.log 2 a) (-1022)
        omega
      calc roundDouble a ≤ (2 : ℚ) ^ (ulpExponent a + 53) := roundDouble_le_pow hpos
        _ ≤ (2 : ℚ) ^ (ulpExponent b + 52) := by
            apply zpow_le_zpow_right₀ (by norm_num)
            omega
        _ ≤ roundDouble b := pow_le_roundDouble hb hn

/-- The value of roundDouble at a positive number of the normal range. -/
theorem roundDouble_eval {q : ℚ} {k m : Int} (h1 : (2 : ℚ) ^ k ≤ q) (h2 : q < (2 : ℚ) ^ (k + 1))
    (hk : -1022 ≤ k) (hm : roundHalfEven (q / 2 ^ (k - 52)) = m) :
    roundDouble q = m * 2 ^ (k - 52) := by
  have hq : 0 < q := lt_of_lt_of_le (by positivity) h1
  have he : ulpExponent q = k - 52 := by
    unfold ulpExponent
    rw [abs_of_pos hq, log_two_eq h1 h2, max_eq_left hk]
  unfold roundDouble
  rw [he, hm]

theorem roundHalfEven_eval {r : ℚ} {f : Int} (h1 : (f : ℚ) ≤ r) (h2 : r < f + 1) :
    roundHalfEven r = if r - f < 1 / 2 then f else if 1 / 2 < r - f then f + 1
      else if f % 2 = 0 then f else f + 1 := by
  have hf : ⌊r⌋ = f := Int.floor_eq_iff.mpr ⟨h1, h2⟩
  unfold roundHalfEven
  rw [hf]

theorem roundDouble_half1023 : roundDouble (1023 / 2) = 1023 / 2 := by
  rw [roundDouble_eval (k := 8) (m := 1023 * 2 ^ 43) (by norm_num) (by norm_num) (by norm_num)]
  · norm_num [zpow_neg]
  · have : (1023 / 2 : ℚ) / 2 ^ ((8 : Int) - 52) = ((1023 * 2 ^ 43 : Int) : ℚ) := by
      norm_num [zpow_neg]
    rw [this, roundHalfEven_intCast]

theorem roundDouble_dutyJustBelowStep : roundDouble dutyJustBelowStep = dutyJustBelowStep := by
  unfold dutyJustBelowStep
  rw [roundDouble_eval (k := -10) (m := 1127000493261825 * 4) (by norm_num) (by norm_num)
    (by norm_num)]
  · norm_num [zpow_neg]
  · have : (1127000493261825 / 1152921504606846976 : ℚ) / 2 ^ ((-10 : Int) - 52)
        = ((1127000493261825 * 4 : Int) : ℚ) := by
      norm_num [zpow_neg]
    rw [this, roundHalfEven_intCast]

theorem roundDouble_product_dutyJustBelowStep : roundDouble (1023 * dutyJustBelowStep) = 1 := by
  unfold dutyJustBelowStep
  rw [roundDouble_eval (k := -1) (m := 2 ^ 53) (by norm_num) (by norm_num) (by norm_num)]
  · norm_num [zpow_neg]
  · rw [roundHalfEven_eval (f := 2 ^ 53 - 1) (by norm_num [zpow_neg]) (by norm_num [zpow_neg])]
    norm_num [zpow_neg]

/-! ## Numeric lemmas: the duty-cycle conversion -/

theorem toInt_mono {a b : ℚ} (h : a ≤ b) : toInt a ≤ toInt b := by
  unfold toInt
  split_ifs with ha hb hb
  · exact Int.floor_mono h
  · exact absurd (le_trans ha h) hb
  · exact le_trans (Int.ceil_le.mpr (by push_cast; linarith)) (Int.floor_nonneg.mpr hb)
  · exact Int.ceil_mono h

theorem toInt_intCast (n : Int) : toInt (n : ℚ) = n := by
  unfold toInt
  split_ifs <;> simp

theorem toInt_zero : toInt 0 = 0 := by simpa using toInt_intCast 0

theorem toInt_1023 : toInt 1023 = 1023 := by simpa using toInt_intCast 1023

theorem castInt_val (undef : ℚ → CInt) (v : ℚ) :
    ((castInt undef v : CInt) : Int)
      = if IsInt32 (toInt v) then toInt v else ((undef v : CInt) : Int) := by
  unfold castInt
  split_ifs <;> rfl

theorem castInt_coe (undef : ℚ → CInt) (n : CInt) : castInt undef ((n : Int) : ℚ) = n := by
  apply Subtype.ext
  rw [castInt_val, toInt_intCast, if_pos n.2]

theorem castInt_ne_of_not_fits (undef : ℚ → CInt) (v : ℚ) (h : ¬ IsInt32 (toInt v)) :
    ((castInt undef v : CInt) : Int) ≠ toInt v := by
  intro heq
  exact h (heq ▸ (castInt undef v).2)

theorem toBool_ofBool (b : Bool) : toBool (ofBool b) = b := by
  cases b <;> simp [toBool, ofBool]

theorem pwm_clamp_eq (x : ℚ) :
    (if x < 0 then (0 : ℚ) else if x > 1 then 1 else x) = min (max x 0) 1 := by
  split_ifs with h0 h1
  · rw [max_eq_right h0.le, min_eq_left zero_le_one]
  · rw [max_eq_left (not_lt.mp h0), min_eq_right h1.le]
  · rw [max_eq_left (not_lt.mp h0), min_eq_left (not_lt.mp h1)]

theorem led_clamp_eq (x : ℚ) :
    (if (if x > 1 then (1 : ℚ) else x) < 0 then (0 : ℚ) else (if x > 1 then 1 else x))
      = min (max x 0) 1 := by
  split_ifs with h1 h0 h0
  · linarith
  · rw [max_eq_left (by linarith), min_eq_right h1.le]
  · rw [max_eq_right h0.le, min_eq_left zero_le_one]
  · rw [max_eq_left (not_lt.mp h0), min_eq_left (not_lt.mp h1)]

theorem pwm_duty_eq (x : ℚ) :
    SetPWMOutput_dutyCyc10bit x = toInt (roundDouble (1023 * min (max x 0) 1)) := by
  unfold SetPWMOutput_dutyCyc10bit mulDouble
  simp only [pwm_clamp_eq]

theorem led_duty_eq (x : ℚ) :
    SetLEDOutput_dutyCycle x = toInt (roundDouble (1023 * min (max x 0) 1)) := by
  unfold SetLEDOutput_dutyCycle mulDouble
  simp only [led_clamp_eq, mul_comm]

theorem clamped_bounds (x : ℚ) : 0 ≤ 1023 * min (max x 0) 1 ∧ 1023 * min (max x 0) 1 ≤ 1023 := by
  constructor
  · exact mul_nonneg (by norm_num) (le_min (le_max_right _ _) zero_le_one)
  · have := min_le_right (max x 0) 1
    linarith

theorem scaled_bounds (x : ℚ) :
    0 ≤ toInt (roundDouble (1023 * min (max x 0) 1))
      ∧ toInt (roundDouble (1023 * min (max x 0) 1)) ≤ 1023 := by
  have h0 := roundDouble_mono_nonneg le_rfl (clamped_bounds x).1
  have h1 := roundDouble_mono_nonneg (clamped_bounds x).1 (clamped_bounds x).2
  rw [roundDouble_zero] at h0
  rw [roundDouble_1023] at h1
  constructor
  · simpa [toInt_zero] using toInt_mono h0
  · simpa [toInt_1023] using toInt_mono h1

theorem scaled_low (x : ℚ) (h : x ≤ 0) : toInt (roundDouble (1023 * min (max x 0) 1)) = 0 := by
  rw [max_eq_right h, min_eq_left zero_le_one, mul_zero, roundDouble_zero, toInt_zero]

theorem scaled_high (x : ℚ) (h : 1 ≤ x) :
    toInt (roundDouble (1023 * min (max x 0) 1)) = 1023 := by
  rw [max_eq_left (by linarith), min_eq_right h, mul_one, roundDouble_1023, toInt_1023]

theorem scaled_mono {x y : ℚ} (h : x ≤ y) :
    toInt (roundDouble (1023 * min (max x 0) 1))
      ≤ toInt (roundDouble (1023 * min (max y 0) 1)) := by
  apply toInt_mono
  apply roundDouble_mono_nonneg (clamped_bounds x).1
  have : min (max x 0) 1 ≤ min (max y 0) 1 := min_le_min (max_le_max h le_rfl) le_rfl
  linarith

theorem clampChannel_eq_max (ch : Int) : clampChannel ch = max ch 0 := by
  unfold clampChannel
  split_ifs with h
  · exact (max_eq_right h.le).symm
  · exact (max_eq_left (not_lt.mp h)).symm

/-! ## C1, C2, C9: what SetLEDOutput, SetPWMOutput and EnablePWMOutput send -/

/-- C1 (duty-cycle clamping totality).  For every duty fraction `x`, every link
and every world, SetPWMOutput and SetLEDOutput each make exactly one call through
the link and return its outcome; the duty value `d` of that call satisfies
`0 ≤ d ≤ 1023`, is `0` when `x ≤ 0` and is `1023` when `1 ≤ x`. -/
theorem duty_cycle_clamping_total {σ : Type} (L : Link σ) (w : World σ) (x : ℚ)
    (pwmChannel ledChannel : Int) :
    (∃ k d r, (SetPWMOutput L pwmChannel x w).2.trace
          = w.trace ++ [(Cmd.c_CANifier_SetPWMOutput k d, r)]
        ∧ (SetPWMOutput L pwmChannel x w).1 = r.err
        ∧ 0 ≤ d ∧ d ≤ 1023 ∧ (x ≤ 0 → d = 0) ∧ (1 ≤ x → d = 1023))
    ∧ (∃ d r, (SetLEDOutput L x ledChannel w).2.trace
          = w.trace ++ [(Cmd.c_CANifier_SetLEDOutput d ledChannel, r)]
        ∧ (SetLEDOutput L x ledChannel w).1 = r.err
        ∧ 0 ≤ d ∧ d ≤ 1023 ∧ (x ≤ 0 → d = 0) ∧ (1 ≤ x → d = 1023)) := by
  constructor
  · refine ⟨_, _, _, rfl, rfl, ?_⟩
    rw [pwm_duty_eq]
    exact ⟨(scaled_bounds x).1, (scaled_bounds x).2, scaled_low x, scaled_high x⟩
  · refine ⟨_, _, rfl, rfl, ?_⟩
    rw [led_duty_eq]
    exact ⟨(scaled_bounds x).1, (scaled_bounds x).2, scaled_low x, scaled_high x⟩

/-- Witness of C1: on the store device, SetLEDOutput of 1.5 sends the duty value
1023 and SetPWMOutput of -0.2 sends the duty value 0. -/
theorem duty_cycle_clamping_total_witness :
    (∃ d r, (SetLEDOutput (storeLink sampleDefault) (3 / 2) 0
          (World.start (storeOf sampleDefault))).2.trace
        = [(Cmd.c_CANifier_SetLEDOutput d 0, r)] ∧ d = 1023)
    ∧ (∃ k d r, (SetPWMOutput (storeLink sampleDefault) 0 (-1 / 5)
          (World.start (storeOf sampleDefault))).2.trace
        = [(Cmd.c_CANifier_SetPWMOutput k d, r)] ∧ d = 0) := by
  constructor
  · obtain ⟨d, r, htr, _, _, _, _, hhigh⟩ :=
      (duty_cycle_clamping_total (storeLink sampleDefault)
        (World.start (storeOf sampleDefault)) (3 / 2) 0 0).2
    exact ⟨d, r, by simpa [World.start] using htr, hhigh (by norm_num)⟩
  · obtain ⟨k, d, r, htr, _, _, _, hlow, _⟩ :=
      (duty_cycle_clamping_total (storeLink sampleDefault)
        (World.start (storeOf sampleDefault)) (-1 / 5) 0 0).1
    exact ⟨k, d, r, by simpa [World.start] using htr, hlow (by norm_num)⟩

/-- C2 (monotonic duty-cycle encoding).  For all duty fractions `x ≤ y`, the
duty value that SetPWMOutput sends for `x` is at most the one it sends for `y`,
and likewise for SetLEDOutput, whatever the links, worlds and channels of the
two calls. -/
theorem duty_cycle_monotone {σ : Type} (L L' : Link σ) (w w' : World σ) (x y : ℚ)
    (ch ch' : Int) (hxy : x ≤ y) :
    (∃ k d r k' d' r',
        (SetPWMOutput L ch x w).2.trace = w.trace ++ [(Cmd.c_CANifier_SetPWMOutput k d, r)]
      ∧ (SetPWMOutput L' ch' y w').2.trace
          = w'.trace ++ [(Cmd.c_CANifier_SetPWMOutput k' d', r')]
      ∧ d ≤ d')
    ∧ (∃ d r d' r',
        (SetLEDOutput L x ch w).2.trace = w.trace ++ [(Cmd.c_CANifier_SetLEDOutput d ch, r)]
      ∧ (SetLEDOutput L' y ch' w').2.trace
          = w'.trace ++ [(Cmd.c_CANifier_SetLEDOutput d' ch', r')]
      ∧ d ≤ d') := by
  constructor
  · refine ⟨_, _, _, _, _, _, rfl, rfl, ?_⟩
    rw [pwm_duty_eq, pwm_duty_eq]
    exact scaled_mono hxy
  · refine ⟨_, _, _, _, rfl, rfl, ?_⟩
    rw [led_duty_eq, led_duty_eq]
    exact scaled_mono hxy

/-- Witness of C2 at the duty fractions 1/4 and 3/4 on the store device. -/
theorem duty_cycle_monotone_witness :
    ((1 : ℚ) / 4 ≤ 3 / 4)
    ∧ (∃ k d r k' d' r',
        (SetPWMOutput (storeLink sampleDefault) 1 (1 / 4)
            (World.start (storeOf sampleDefault))).2.trace
          = (World.start (storeOf sampleDefault)).trace
              ++ [(Cmd.c_CANifier_SetPWMOutput k d, r)]
      ∧ (SetPWMOutput (storeLink sampleDefault) 2 (3 / 4)
            (World.start (storeOf sampleDefault))).2.trace
          = (World.start (storeOf sampleDefault)).trace
              ++ [(Cmd.c_CANifier_SetPWMOutput k' d', r')]
      ∧ d ≤ d') :=
  ⟨by norm_num,
   (duty_cycle_monotone (storeLink sampleDefault) (storeLink sampleDefault)
      (World.start (storeOf sampleDefault)) (World.start (storeOf sampleDefault))
      (1 / 4) (3 / 4) 1 2 (by norm_num)).1⟩

/-- C9 (channel-index clamping).  For every integer `pwmChannel`, the channel
index `k` that SetPWMOutput and EnablePWMOutput pass to the link is
`max pwmChannel 0`: it is never negative, it is `0` for a negative index and it
is `pwmChannel` itself for every non-negative index. -/
theorem channel_index_clamped {σ : Type} (L : Link σ) (w : World σ) (pwmChannel : Int)
    (dutyCycle : ℚ) (bEnable : Bool) :
    ∃ k, k = max pwmChannel 0 ∧ 0 ≤ k ∧ (pwmChannel < 0 → k = 0) ∧ (0 ≤ pwmChannel → k = pwmChannel)
      ∧ cmds (SetPWMOutput L pwmChannel dutyCycle w).2.trace
          = cmds w.trace ++ [Cmd.c_CANifier_SetPWMOutput k (SetPWMOutput_dutyCyc10bit dutyCycle)]
      ∧ cmds (EnablePWMOutput L pwmChannel bEnable w).2.trace
          = cmds w.trace ++ [Cmd.c_CANifier_EnablePWMOutput k bEnable] := by
  refine ⟨max pwmChannel 0, rfl, le_max_right _ _, fun h => max_eq_right h.le,
    fun h => max_eq_left h, ?_, ?_⟩
  · rw [← clampChannel_eq_max]
    simp [SetPWMOutput, call, cmds, bind, StateT.bind, pure, StateT.pure]
  · rw [← clampChannel_eq_max]
    simp [EnablePWMOutput, call, cmds, bind, StateT.bind, pure, StateT.pure]

/-- Witness of C9: the channel index -3 is sent as 0 by EnablePWMOutput on the
store device. -/
theorem channel_index_clamped_witness :
    ∃ k, k = 0
      ∧ cmds (EnablePWMOutput (storeLink sampleDefault) (-3) true
          (World.start (storeOf sampleDefault))).2.trace
        = [Cmd.c_CANifier_EnablePWMOutput k true] := by
  obtain ⟨k, _, _, hneg, _, _, hen⟩ :=
    channel_index_clamped (storeLink sampleDefault) (World.start (storeOf sampleDefault))
      (-3) 0 true
  exact ⟨k, hneg (by decide), by simpa [World.start, cmds] using hen⟩

/-! ## ConfigAllSettings as a call sequence -/

theorem exec_eq {σ : Type} (L : Link σ) (rank : ErrorCode → Nat) (cs : List Cmd)
    (ec : ErrorCollection) (w : World σ) :
    exec L rank cs (ec, w) =
      ((outcomes (replies L cs w.dev)).foldl (ErrorCollection.NewError rank) ec,
       ⟨devAfter L cs w.dev, w.trace ++ replies L cs w.dev⟩) := by
  induction cs generalizing ec w with
  | nil => simp [exec, replies, devAfter, outcomes]
  | cons c cs ih =>
    simp only [exec, ih, call, replies, devAfter, outcomes, List.map_cons, List.foldl_cons,
      List.append_assoc, List.singleton_append]

theorem ite_ne_eq_ite_bne {α β : Type} [DecidableEq α] (a b : α) (x y : β) :
    (if a ≠ b then x else y) = (if (!(a == b)) = true then x else y) := by
  by_cases h : a = b <;> simp [h]

theorem ConfigAllSettings_exec {σ : Type} (L : Link σ) (rank : ErrorCode → Nat)
    (d c : CANifierConfiguration) (t : Int) (w : World σ) :
    ConfigAllSettings L rank d c t w =
      ((exec L rank (.c_CANifier_ConfigFactoryDefault t :: fieldWrites d c t)
          ({}, w)).1._worstError,
       (exec L rank (.c_CANifier_ConfigFactoryDefault t :: fieldWrites d c t) ({}, w)).2) := by
  unfold ConfigAllSettings fieldWrites
  simp only [ite_ne_eq_ite_bne]
  unfold VelocityMeasurementPeriodDifferent VelocityMeasurementWindowDifferent
    ClearPositionOnLimitFDifferent ClearPositionOnLimitRDifferent ClearPositionOnQuadIdxDifferent
    CustomParam0Different CustomParam1Different
  generalize (!(c.velocityMeasurementPeriod == d.velocityMeasurementPeriod)) = b1
  generalize (!(c.velocityMeasurementWindow == d.velocityMeasurementWindow)) = b2
  generalize (!(c.clearPositionOnLimitF == d.clearPositionOnLimitF)) = b3
  generalize (!(c.clearPositionOnLimitR == d.clearPositionOnLimitR)) = b4
  generalize (!(c.clearPositionOnQuadIdx == d.clearPositionOnQuadIdx)) = b5
  generalize (!(c.customParam0 == d.customParam0)) = b6
  generalize (!(c.customParam1 == d.customParam1)) = b7
  cases b1 <;> cases b2 <;> cases b3 <;> cases b4 <;> cases b5 <;> cases b6 <;> cases b7 <;> rfl

/-- ConfigAllSettings issues the reset followed by `fieldWrites`, and returns the
aggregate of their outcomes. -/
theorem ConfigAllSettings_run {σ : Type} (L : Link σ) (rank : ErrorCode → Nat)
    (d c : CANifierConfiguration) (t : Int) (w : World σ) :
    ConfigAllSettings L rank d c t w =
      (aggregate rank
        (outcomes (replies L (.c_CANifier_ConfigFactoryDefault t :: fieldWrites d c t) w.dev)),
       ⟨devAfter L (.c_CANifier_ConfigFactoryDefault t :: fieldWrites d c t) w.dev,
        w.trace ++ replies L (.c_CANifier_ConfigFactoryDefault t :: fieldWrites d c t) w.dev⟩) := by
  rw [ConfigAllSettings_exec, exec_eq]
  rfl

theorem cmds_replies {σ : Type} (L : Link σ) (cs : List Cmd) (s : σ) :
    cmds (replies L cs s) = cs := by
  induction cs generalizing s with
  | nil => rfl
  | cons c cs ih =>
    simp only [replies, cmds, List.map_cons, List.cons.injEq, true_and]
    exact ih _

theorem length_replies {σ : Type} (L : Link σ) (cs : List Cmd) (s : σ) :
    (replies L cs s).length = cs.length := by
  rw [← cmds_replies L cs s, cmds, List.length_map, ← cmds, cmds_replies]

theorem countP_ite_singleton (p : Cmd → Bool) (b : Prop) [Decidable b] (c : Cmd) :
    (if b then [c] else []).countP p = if b then (if p c then 1 else 0) else 0 := by
  by_cases hb : b <;> by_cases hp : p c <;> simp [hb, hp]

theorem length_ite_singleton (b : Prop) [Decidable b] (c : Cmd) :
    (if b then [c] else []).length = if b then 1 else 0 := by
  by_cases hb : b <;> simp [hb]

theorem fieldWrites_counts (d c : CANifierConfiguration) (t : Int) :
    (fieldWrites d c t).countP Cmd.isFieldWrite = diffCount d c ∧
    (fieldWrites d c t).countP Cmd.isFactoryDefault = 0 ∧
    (fieldWrites d c t).length = diffCount d c := by
  unfold fieldWrites diffCount
  refine ⟨?_, ?_, ?_⟩
  · simp only [List.countP_append, countP_ite_singleton, Cmd.isFieldWrite, if_true]
  · simp only [List.countP_append, countP_ite_singleton, Cmd.isFactoryDefault,
      Bool.false_eq_true, if_false, ite_self]
  · simp only [List.length_append, length_ite_singleton]

theorem fieldWrites_self (d : CANifierConfiguration) (t : Int) : fieldWrites d d t = [] := by
  simp [fieldWrites]

/-! ## ErrorCollection -/

theorem NewError_ok_iff {rank : ErrorCode → Nat} (hrank : OKIsUniqueMinimum rank)
    (ec : ErrorCollection) (e : ErrorCode) :
    (ec.NewError rank e)._worstError = OK ↔ ec._worstError = OK ∧ e = OK := by
  unfold ErrorCollection.NewError
  split_ifs with h
  · constructor
    · intro he
      have h0 : rank e = 0 := (hrank e).mpr he
      omega
    · exact fun h' => h'.2
  · constructor
    · intro hw
      refine ⟨hw, ?_⟩
      have h0 : rank ec._worstError = 0 := (hrank _).mpr hw
      exact (hrank e).mp (by omega)
    · exact fun h' => h'.1

theorem foldl_NewError_ok_iff {rank : ErrorCode → Nat} (hrank : OKIsUniqueMinimum rank)
    (es : List ErrorCode) (ec : ErrorCollection) :
    (es.foldl (ErrorCollection.NewError rank) ec)._worstError = OK
      ↔ ec._worstError = OK ∧ ∀ e ∈ es, e = OK := by
  induction es generalizing ec with
  | nil => simp
  | cons e es ih =>
    rw [List.foldl_cons, ih, NewError_ok_iff hrank]
    simp only [List.mem_cons, forall_eq_or_imp, and_assoc]

theorem aggregate_ok_iff {rank : ErrorCode → Nat} (hrank : OKIsUniqueMinimum rank)
    (es : List ErrorCode) : aggregate rank es = OK ↔ ∀ e ∈ es, e = OK := by
  unfold aggregate
  rw [foldl_NewError_ok_iff hrank]
  exact ⟨fun h => h.2, fun h => ⟨rfl, h⟩⟩

theorem firstSeenRank_ok : OKIsUniqueMinimum firstSeenRank := by
  intro e
  unfold firstSeenRank
  split_ifs with h <;> simp [h]

/-! ## C3, C4, C10: the write path -/

/-- C3 (diff-skip and diff-apply count).  For every link, ranking, default and
desired configuration, timeout and world, the calls that ConfigAllSettings adds
to the log contain exactly one factory-default reset and exactly `diffCount`
field-level writes, `diffCount` being the number of the seven fields in which
the desired configuration differs from the default, and nothing else; for the
default configuration itself the only call added is the reset. -/
theorem ConfigAllSettings_write_count {σ : Type} (L : Link σ) (rank : ErrorCode → Nat)
    (d c : CANifierConfiguration) (t : Int) (w : World σ) :
    (∃ tr, (ConfigAllSettings L rank d c t w).2.trace = w.trace ++ tr
      ∧ (cmds tr).countP Cmd.isFactoryDefault = 1
      ∧ (cmds tr).countP Cmd.isFieldWrite = diffCount d c
      ∧ tr.length = 1 + diffCount d c)
    ∧ diffCount d d = 0
    ∧ (ConfigAllSettings L rank d d t w).2.trace
        = w.trace ++ [(Cmd.c_CANifier_ConfigFactoryDefault t,
            (L (Cmd.c_CANifier_ConfigFactoryDefault t) w.dev).1)] := by
  refine ⟨⟨_, by rw [ConfigAllSettings_run], ?_, ?_, ?_⟩, ?_, ?_⟩
  · rw [cmds_replies, List.countP_cons, (fieldWrites_counts d c t).2.1]
    rfl
  · rw [cmds_replies, List.countP_cons, (fieldWrites_counts d c t).1]
    rfl
  · rw [length_replies, List.length_cons, (fieldWrites_counts d c t).2.2, Nat.add_comm]
  · simp [diffCount]
  · rw [ConfigAllSettings_run, fieldWrites_self]
    rfl

/-- C4 (worst-outcome result).  When "no error" is the unique minimum of the
ranking, the outcome returned by ConfigAllSettings is the ErrorCollection
aggregate of the outcomes of the calls it made (the reset, then the applied
writes, in issue order); it is "no error" exactly when each of those outcomes is
"no error", and a failed reset makes it a failure. -/
theorem ConfigAllSettings_worst_outcome {σ : Type} (L : Link σ) (rank : ErrorCode → Nat)
    (d c : CANifierConfiguration) (t : Int) (w : World σ) (hrank : OKIsUniqueMinimum rank) :
    ∃ tr, (ConfigAllSettings L rank d c t w).2.trace = w.trace ++ tr
      ∧ cmds tr = Cmd.c_CANifier_ConfigFactoryDefault t :: fieldWrites d c t
      ∧ (ConfigAllSettings L rank d c t w).1 = aggregate rank (outcomes tr)
      ∧ ((ConfigAllSettings L rank d c t w).1 = OK ↔ ∀ e ∈ outcomes tr, e = OK)
      ∧ ((∃ e ∈ outcomes tr, e ≠ OK) → (ConfigAllSettings L rank d c t w).1 ≠ OK)
      ∧ ((L (Cmd.c_CANifier_ConfigFactoryDefault t) w.dev).1.err ≠ OK →
          (ConfigAllSettings L rank d c t w).1 ≠ OK) := by
  refine ⟨_, by rw [ConfigAllSettings_run], cmds_replies _ _ _, by rw [ConfigAllSettings_run],
    ?_, ?_, ?_⟩
  · rw [ConfigAllSettings_run]
    exact aggregate_ok_iff hrank _
  · rintro ⟨e, he, hne⟩ hok
    rw [ConfigAllSettings_run] at hok
    exact hne ((aggregate_ok_iff hrank _).mp hok e he)
  · intro hne hok
    rw [ConfigAllSettings_run] at hok
    exact hne ((aggregate_ok_iff hrank _).mp hok _ (by simp [replies, outcomes]))

/-- Witness of C4: the ranking "first-seen failure wins" on the store device,
which accepts every call, gives the result "no error". -/
theorem ConfigAllSettings_worst_outcome_witness :
    OKIsUniqueMinimum firstSeenRank
    ∧ ∃ tr, (ConfigAllSettings (storeLink sampleDefault) firstSeenRank sampleDefault sampleConfig 50
          (World.start (storeOf sampleDefault))).2.trace
        = (World.start (storeOf sampleDefault)).trace ++ tr
      ∧ cmds tr = Cmd.c_CANifier_ConfigFactoryDefault 50 :: fieldWrites sampleDefault sampleConfig 50
      ∧ (ConfigAllSettings (storeLink sampleDefault) firstSeenRank sampleDefault sampleConfig 50
          (World.start (storeOf sampleDefault))).1 = aggregate firstSeenRank (outcomes tr) := by
  refine ⟨firstSeenRank_ok, ?_⟩
  obtain ⟨tr, h1, h2, h3, _⟩ :=
    ConfigAllSettings_worst_outcome (storeLink sampleDefault) firstSeenRank sampleDefault
      sampleConfig 50 (World.start (storeOf sampleDefault)) firstSeenRank_ok
  exact ⟨tr, h1, h2, h3⟩

/-- C10 (command trace).  For every link, ranking, default and desired
configuration, timeout and world, the calls that ConfigAllSettings adds to the
log are the factory-default reset with the caller's timeout followed by
`fieldWrites`: in the order period, window, clear-on-limitF, clear-on-limitR,
clear-on-quad-index, customParam0, customParam1, the setter of each field whose
desired value differs from the default, with the desired value and the caller's
timeout, customParam0 with ordinal 0 and customParam1 with ordinal 1.  When only
customParam1 is changed, to 7, the calls are the reset and the single write
(value 7, ordinal 1). -/
theorem ConfigAllSettings_command_trace {σ : Type} (L : Link σ) (rank : ErrorCode → Nat)
    (d c : CANifierConfiguration) (t : Int) (w : World σ) :
    cmds (ConfigAllSettings L rank d c t w).2.trace
        = cmds w.trace ++ Cmd.c_CANifier_ConfigFactoryDefault t :: fieldWrites d c t
    ∧ (d.customParam1 ≠ 7 →
        cmds (ConfigAllSettings L rank d { d with customParam1 := 7 } t w).2.trace
          = cmds w.trace ++ [Cmd.c_CANifier_ConfigFactoryDefault t,
              Cmd.c_CANifier_ConfigSetCustomParam 7 1 t]) := by
  have key : ∀ c', cmds (ConfigAllSettings L rank d c' t w).2.trace
      = cmds w.trace ++ Cmd.c_CANifier_ConfigFactoryDefault t :: fieldWrites d c' t := by
    intro c'
    rw [ConfigAllSettings_run]
    show cmds (w.trace ++ _) = _
    rw [cmds, List.map_append, ← cmds, ← cmds, cmds_replies]
  refine ⟨key c, fun h7 => ?_⟩
  rw [key]
  have h7' : (7 : CInt) ≠ d.customParam1 := fun h => h7 h.symm
  have hval : ((7 : CInt) : Int) = 7 := rfl
  simp [fieldWrites, h7', hval]

/-- Witness of C10: with the sample default, whose customParam1 is 0, changing
customParam1 to 7 gives the reset followed by the write (7, ordinal 1). -/
theorem ConfigAllSettings_command_trace_witness :
    sampleDefault.customParam1 ≠ 7
    ∧ cmds (ConfigAllSettings (storeLink sampleDefault) firstSeenRank sampleDefault
          { sampleDefault with customParam1 := 7 } 50
          (World.start (storeOf sampleDefault))).2.trace
        = cmds (World.start (storeOf sampleDefault)).trace
            ++ [Cmd.c_CANifier_ConfigFactoryDefault 50,
                Cmd.c_CANifier_ConfigSetCustomParam 7 1 50] :=
  ⟨by decide,
   (ConfigAllSettings_command_trace (storeLink sampleDefault) firstSeenRank sampleDefault
      sampleDefault 50 (World.start (storeOf sampleDefault))).2 (by decide)⟩

/-! ## GetAllConfigs as a call sequence -/

/-- GetAllConfigs issues `configReads` and rebuilds the configuration from the
values of the answers. -/
theorem GetAllConfigs_run {σ : Type} (L : Link σ) (undef : ℚ → CInt)
    (a : CANifierConfiguration) (t : Int) (w : World σ) :
    (GetAllConfigs L undef a t w).2
        = ⟨devAfter L (configReads t) w.dev, w.trace ++ replies L (configReads t) w.dev⟩
    ∧ some (GetAllConfigs L undef a t w).1
        = configOfValues undef
            ((replies L (configReads t) w.dev).map (fun p => p.2.realOut)) := by
  constructor
  · simp only [GetAllConfigs, ConfigGetParameter, call, configReads, replies, devAfter, bind,
      StateT.bind, pure, StateT.pure, List.append_assoc, List.singleton_append,
      List.cons_append, List.nil_append]
  · rfl

theorem mapErr_values {σ : Type} (f : ErrorCode → ErrorCode) (L : Link σ) (cs : List Cmd)
    (s : σ) :
    (replies (L.mapErr f) cs s).map (fun p => p.2.realOut)
      = (replies L cs s).map (fun p => p.2.realOut) := by
  induction cs generalizing s with
  | nil => rfl
  | cons c cs ih => simp [replies, Link.mapErr, ih]

/-- C8 as stated fails: a read of 3000000000, whose integer truncation is
3000000000, does not fit an int, so no field of type int can hold that
truncation.  On the device that answers 3000000000 to every read, the field
customParam0 filled by GetAllConfigs differs from the truncation of its read,
whatever an out-of-range cast yields; with the x86-64 result of such a cast it
is -2147483648. -/
theorem GetAllConfigs_truncation_counterexample :
    (constLink ⟨OK, 0, 3000000000, []⟩
        (Cmd.c_CANifier_ConfigGetParameter .eCustomParam 0 0) ()).1.realOut = 3000000000
    ∧ toInt 3000000000 = 3000000000
    ∧ (((GetAllConfigs (constLink ⟨OK, 0, 3000000000, []⟩) undefIntMin sampleDefault 0
          (World.start ())).1.customParam0 : CInt) : Int) = -2147483648
    ∧ (∀ undef : ℚ → CInt,
        (((GetAllConfigs (constLink ⟨OK, 0, 3000000000, []⟩) undef sampleDefault 0
          (World.start ())).1.customParam0 : CInt) : Int) ≠ toInt 3000000000) := by
  have htr : toInt 3000000000 = 3000000000 := by simpa using toInt_intCast 3000000000
  have hnot : ¬ IsInt32 (toInt 3000000000) := by
    rw [htr]
    decide
  have hfield : ∀ undef : ℚ → CInt,
      (GetAllConfigs (constLink ⟨OK, 0, 3000000000, []⟩) undef sampleDefault 0
        (World.start ())).1.customParam0 = castInt undef 3000000000 := fun _ => rfl
  refine ⟨rfl, htr, ?_, ?_⟩
  · rw [hfield, castInt_val, if_neg hnot]
    rfl
  · intro undef
    rw [hfield]
    exact castInt_ne_of_not_fits undef _ hnot

/-- C8 as amended.  For every link, world and timeout, GetAllConfigs adds
exactly seven calls to the log, the reads of sample-velocity period,
sample-velocity window, clear-on-limitF, clear-on-limitR, clear-on-quad-index
(each ordinal 0), custom param ordinal 0 and custom param ordinal 1, each with
the caller's timeout; each boolean field of the result is the non-zero test of
the value answered to its own read; each integer field is the cast to int of the
value answered to its own read, which is the integer truncation of that value
whenever the truncation fits an int (and is the result `undef` of the undefined
cast otherwise); and rewriting the outcomes of the link in any way leaves the
result unchanged. -/
theorem GetAllConfigs_reads_every_field {σ : Type} (L : Link σ) (undef : ℚ → CInt)
    (a : CANifierConfiguration) (t : Int) (w : World σ) :
    (∃ r1 r2 r3 r4 r5 r6 r7 : Resp,
      (GetAllConfigs L undef a t w).2.trace = w.trace ++
        [(Cmd.c_CANifier_ConfigGetParameter .eSampleVelocityPeriod 0 t, r1),
         (Cmd.c_CANifier_ConfigGetParameter .eSampleVelocityWindow 0 t, r2),
         (Cmd.c_CANifier_ConfigGetParameter .eClearPositionOnLimitF 0 t, r3),
         (Cmd.c_CANifier_ConfigGetParameter .eClearPositionOnLimitR 0 t, r4),
         (Cmd.c_CANifier_ConfigGetParameter .eClearPositionOnQuadIdx 0 t, r5),
         (Cmd.c_CANifier_ConfigGetParameter .eCustomParam 0 t, r6),
         (Cmd.c_CANifier_ConfigGetParameter .eCustomParam 1 t, r7)]
      ∧ (GetAllConfigs L undef a t w).1 =
          { velocityMeasurementPeriod := castInt undef r1.realOut,
            velocityMeasurementWindow := castInt undef r2.realOut,
            clearPositionOnLimitF := toBool r3.realOut,
            clearPositionOnLimitR := toBool r4.realOut,
            clearPositionOnQuadIdx := toBool r5.realOut,
            customParam0 := castInt undef r6.realOut,
            customParam1 := castInt undef r7.realOut }
      ∧ ((GetAllConfigs L undef a t w).1.velocityMeasurementPeriod : Int)
          = (if IsInt32 (toInt r1.realOut) then toInt r1.realOut
              else ((undef r1.realOut : CInt) : Int))
      ∧ ((GetAllConfigs L undef a t w).1.velocityMeasurementWindow : Int)
          = (if IsInt32 (toInt r2.realOut) then toInt r2.realOut
              else ((undef r2.realOut : CInt) : Int))
      ∧ ((GetAllConfigs L undef a t w).1.customParam0 : Int)
          = (if IsInt32 (toInt r6.realOut) then toInt r6.realOut
              else ((undef r6.realOut : CInt) : Int))
      ∧ ((GetAllConfigs L undef a t w).1.customParam1 : Int)
          = (if IsInt32 (toInt r7.realOut) then toInt r7.realOut
              else ((undef r7.realOut : CInt) : Int)))
    ∧ (∀ f : ErrorCode → ErrorCode,
        (GetAllConfigs (L.mapErr f) undef a t w).1 = (GetAllConfigs L undef a t w).1) := by
  constructor
  · have h := GetAllConfigs_run L undef a t w
    simp only [configReads, replies, List.map_cons, List.map_nil, configOfValues,
      Option.some.injEq] at h
    refine ⟨_, _, _, _, _, _, _, by rw [h.1], h.2, ?_, ?_, ?_, ?_⟩ <;>
      rw [h.2] <;> exact castInt_val undef _
  · intro f
    have h1 := (GetAllConfigs_run (L.mapErr f) undef a t w).2
    have h2 := (GetAllConfigs_run L undef a t w).2
    rw [mapErr_values] at h1
    exact Option.some.inj (h1.trans h2.symm)

/-! ## C5: the round trip on a device that honours parameter semantics -/

theorem storeLink_honours (d : CANifierConfiguration) :
    HonoursParameterSemantics (storeLink d) id d := by
  refine ⟨?_, ?_, ?_⟩
  · intro t s _ p o _
    rfl
  · intro c s p o v hc _
    cases c <;> simp_all [Cmd.written, storeLink]
  · intro p o t s
    exact ⟨rfl, rfl⟩

theorem applyWrites_append (as bs : List Cmd) (st : Store) :
    applyWrites (as ++ bs) st = applyWrites bs (applyWrites as st) := by
  induction as generalizing st with
  | nil => rfl
  | cons a as ih =>
    simp only [List.cons_append, applyWrites]
    cases a.written with
    | none => exact ih _
    | some x => exact ih _

theorem applyWrites_ite (b : Prop) [Decidable b] (c : Cmd) (st : Store) :
    applyWrites (if b then [c] else []) st = if b then applyWrites [c] st else st := by
  by_cases hb : b <;> simp [hb, applyWrites]

theorem ite_store_apply (b : Prop) [Decidable b] (f g : Store) (p : ParamEnum) (o : Int) :
    (if b then f else g) p o = if b then f p o else g p o := by
  by_cases hb : b <;> simp [hb]

theorem applyWrites_fieldWrites (d c : CANifierConfiguration) (t : Int) (st : Store)
    (hst : ∀ p o, (p, o) ∈ configAddresses → st p o = storeOf d p o) :
    ∀ p o, (p, o) ∈ configAddresses → applyWrites (fieldWrites d c t) st p o = storeOf c p o := by
  intro p o hpo
  have hst' := hst p o hpo
  simp only [configAddresses, List.mem_cons, Prod.mk.injEq, List.mem_singleton,
    List.not_mem_nil, or_false] at hpo
  unfold fieldWrites
  simp only [applyWrites_append, applyWrites_ite, applyWrites, Cmd.written, ite_store_apply,
    Store.set]
  rcases hpo with ⟨rfl, rfl⟩ | ⟨rfl, rfl⟩ | ⟨rfl, rfl⟩ | ⟨rfl, rfl⟩ | ⟨rfl, rfl⟩ | ⟨rfl, rfl⟩ |
    ⟨rfl, rfl⟩ <;> simp [storeOf, hst'] <;> intro h <;> rw [h]

theorem fieldWrites_written (d c : CANifierConfiguration) (t : Int) :
    ∀ x ∈ fieldWrites d c t, x.written ≠ none := by
  intro x hx
  unfold fieldWrites at hx
  simp only [List.mem_append] at hx
  rcases hx with (((((hx | hx) | hx) | hx) | hx) | hx) | hx <;>
  · split_ifs at hx
    · rw [List.mem_singleton] at hx
      rw [hx]
      simp [Cmd.written]
    · exact absurd hx (List.not_mem_nil _)

theorem stored_devAfter {σ : Type} {L : Link σ} {stored : σ → Store}
    {d : CANifierConfiguration} (hdev : HonoursParameterSemantics L stored d) (cs : List Cmd)
    (s : σ) (hw : ∀ c ∈ cs, c.written ≠ none)
    (hok : ∀ e ∈ outcomes (replies L cs s), e = OK) :
    stored (devAfter L cs s) = applyWrites cs (stored s) := by
  induction cs generalizing s with
  | nil => rfl
  | cons c cs ih =>
    simp only [replies, outcomes, List.map_cons, List.mem_cons, forall_eq_or_imp] at hok
    have hc := hw c (List.mem_cons_self _ _)
    simp only [devAfter, applyWrites]
    rw [ih _ (fun c' h' => hw c' (List.mem_cons_of_mem _ h')) hok.2]
    cases hcw : c.written with
    | none => exact absurd hcw hc
    | some x =>
      obtain ⟨p, o, v⟩ := x
      rw [hdev.write c s p o v hcw hok.1]

theorem values_of_reads {σ : Type} {L : Link σ} {stored : σ → Store}
    {d : CANifierConfiguration} (hdev : HonoursParameterSemantics L stored d) (t : Int) (s : σ) :
    (replies L (configReads t) s).map (fun p => p.2.realOut)
      = [stored s .eSampleVelocityPeriod 0, stored s .eSampleVelocityWindow 0,
         stored s .eClearPositionOnLimitF 0, stored s .eClearPositionOnLimitR 0,
         stored s .eClearPositionOnQuadIdx 0, stored s .eCustomParam 0,
         stored s .eCustomParam 1] := by
  simp only [configReads, replies, List.map_cons, List.map_nil, (hdev.read _ _ _ _).1,
    (hdev.read _ _ _ _).2]

/-- C5 (configuration round trip).  On a device that honours parameter
semantics, with a ranking whose unique minimum is "no error": for every desired
configuration `c` and all timeouts, if ConfigAllSettings returns "no error" then
GetAllConfigs, run next, yields a configuration equal to `c` (the integer fields
of `c` are ints, so every cast of GetAllConfigs is defined and the result does
not depend on `undef`). -/
theorem config_round_trip {σ : Type} (L : Link σ) (stored : σ → Store)
    (rank : ErrorCode → Nat) (undef : ℚ → CInt) (d c a : CANifierConfiguration) (t t' : Int)
    (w : World σ)
    (hrank : OKIsUniqueMinimum rank) (hdev : HonoursParameterSemantics L stored d)
    (hok : (ConfigAllSettings L rank d c t w).1 = OK) :
    (GetAllConfigs L undef a t' (ConfigAllSettings L rank d c t w).2).1 = c := by
  have hdevEq : (ConfigAllSettings L rank d c t w).2.dev
      = devAfter L (Cmd.c_CANifier_ConfigFactoryDefault t :: fieldWrites d c t) w.dev := by
    rw [ConfigAllSettings_run]
  rw [ConfigAllSettings_run] at hok
  have hall := (aggregate_ok_iff hrank _).mp hok
  simp only [replies, outcomes, List.map_cons, List.mem_cons, forall_eq_or_imp] at hall
  obtain ⟨hreset, hwrites⟩ := hall
  have hst : ∀ p o, (p, o) ∈ configAddresses →
      stored (ConfigAllSettings L rank d c t w).2.dev p o = storeOf c p o := by
    rw [hdevEq]
    simp only [devAfter]
    rw [stored_devAfter hdev _ _ (fieldWrites_written d c t) hwrites]
    exact applyWrites_fieldWrites d c t _ (hdev.reset t w.dev hreset)
  have hget := (GetAllConfigs_run L undef a t' (ConfigAllSettings L rank d c t w).2).2
  rw [values_of_reads hdev] at hget
  simp only [configOfValues, Option.some.injEq] at hget
  rw [hget, hst _ _ (by simp [configAddresses]), hst _ _ (by simp [configAddresses]),
    hst _ _ (by simp [configAddresses]), hst _ _ (by simp [configAddresses]),
    hst _ _ (by simp [configAddresses]), hst _ _ (by simp [configAddresses]),
    hst _ _ (by simp [configAddresses])]
  simp [storeOf, castInt_coe, toBool_ofBool]

/-- Witness of C5: the store device with the ranking "first-seen failure wins"
returns the sample configuration after it was written. -/
theorem config_round_trip_witness :
    OKIsUniqueMinimum firstSeenRank
    ∧ HonoursParameterSemantics (storeLink sampleDefault) id sampleDefault
    ∧ (ConfigAllSettings (storeLink sampleDefault) firstSeenRank sampleDefault sampleConfig 50
        (World.start (storeOf sampleDefault))).1 = OK
    ∧ (GetAllConfigs (storeLink sampleDefault) undefIntMin sampleDefault 50
        (ConfigAllSettings (storeLink sampleDefault) firstSeenRank sampleDefault sampleConfig 50
          (World.start (storeOf sampleDefault))).2).1 = sampleConfig :=
  have hok : (ConfigAllSettings (storeLink sampleDefault) firstSeenRank sampleDefault
      sampleConfig 50 (World.start (storeOf sampleDefault))).1 = OK := by
    decide
  ⟨firstSeenRank_ok, storeLink_honours sampleDefault, hok,
   config_round_trip (storeLink sampleDefault) id firstSeenRank undefIntMin sampleDefault
     sampleConfig sampleDefault 50 50 (World.start (storeOf sampleDefault)) firstSeenRank_ok
     (storeLink_honours sampleDefault) hok⟩

/-! ## C6: GetStickyFaults -/

/-- C6 (GetStickyFaults).  The code does not read the sticky-fault mask: for every
link, decoder and world GetStickyFaults makes the call `c_CANifier_GetFaults`, the
one GetFaults makes, and returns exactly what GetFaults returns.  On the device
whose current fault mask is 0 and whose sticky mask is 1 it therefore returns
the decoding of 0, while the sticky mask read through the link is 1. -/
theorem GetStickyFaults_reads_current_faults :
    (∀ (σ F : Type) (L : Link σ) (decode : Int → F) (w : World σ),
        GetStickyFaults L decode w = GetFaults L decode w
        ∧ (GetStickyFaults L decode w).2.trace
            = w.trace ++ [(Cmd.c_CANifier_GetFaults, (L Cmd.c_CANifier_GetFaults w.dev).1)])
    ∧ (faultsLink Cmd.c_CANifier_GetStickyFaults (0, 1)).1.intOut = 1
    ∧ (faultsLink Cmd.c_CANifier_GetFaults (0, 1)).1.intOut = 0
    ∧ (GetStickyFaults faultsLink id (World.start (0, 1))).1 = (OK, 0)
    ∧ cmds (GetStickyFaults faultsLink id (World.start (0, 1))).2.trace
        = [Cmd.c_CANifier_GetFaults] :=
  ⟨fun _ _ _ _ _ => ⟨rfl, rfl⟩, rfl, rfl, rfl, rfl⟩

/-! ## C7: the parameter getters -/

/-- C7 as stated fails: a failed read (outcome -3) and a successful read that
leave the same value 5 make ConfigGetParameter return the same result, and
likewise ConfigGetCustomParam, so the caller cannot tell them apart. -/
theorem getters_drop_outcome_counterexample :
    (constLink ⟨-3, 5, 5, []⟩ (Cmd.c_CANifier_ConfigGetParameter .eCustomParam 0 10) ()).1.err ≠ OK
    ∧ (constLink ⟨OK, 5, 5, []⟩ (Cmd.c_CANifier_ConfigGetParameter .eCustomParam 0 10) ()).1.err = OK
    ∧ (ConfigGetParameter (constLink ⟨-3, 5, 5, []⟩) .eCustomParam 0 10 (World.start ())).1
        = (ConfigGetParameter (constLink ⟨OK, 5, 5, []⟩) .eCustomParam 0 10 (World.start ())).1
    ∧ (ConfigGetCustomParam (constLink ⟨-3, 5, 5, []⟩) 0 10 (World.start ())).1
        = (ConfigGetCustomParam (constLink ⟨OK, 5, 5, []⟩) 0 10 (World.start ())).1 :=
  ⟨by decide, rfl, rfl, rfl⟩

/-- C7 as amended.  ConfigGetParameter (three arguments) and ConfigGetCustomParam
each make one read through the link and return to their caller only the value
that the read left in its out-parameter; the outcome of the read is not part of
the result, which stays the same when the outcomes of the link are rewritten in
any way. -/
theorem getters_return_value_only {σ : Type} (L : Link σ) (w : World σ) (param : ParamEnum)
    (ordinal paramIndex timeoutMs : Int) :
    (ConfigGetParameter L param ordinal timeoutMs w).1
        = (L (Cmd.c_CANifier_ConfigGetParameter param ordinal timeoutMs) w.dev).1.realOut
    ∧ (ConfigGetParameter L param ordinal timeoutMs w).2.trace
        = w.trace ++ [(Cmd.c_CANifier_ConfigGetParameter param ordinal timeoutMs,
            (L (Cmd.c_CANifier_ConfigGetParameter param ordinal timeoutMs) w.dev).1)]
    ∧ (ConfigGetCustomParam L paramIndex timeoutMs w).1
        = (L (Cmd.c_CANifier_ConfigGetCustomParam paramIndex timeoutMs) w.dev).1.intOut
    ∧ (ConfigGetCustomParam L paramIndex timeoutMs w).2.trace
        = w.trace ++ [(Cmd.c_CANifier_ConfigGetCustomParam paramIndex timeoutMs,
            (L (Cmd.c_CANifier_ConfigGetCustomParam paramIndex timeoutMs) w.dev).1)]
    ∧ (∀ f : ErrorCode → ErrorCode,
        (ConfigGetParameter (L.mapErr f) param ordinal timeoutMs w).1
          = (ConfigGetParameter L param ordinal timeoutMs w).1
        ∧ (ConfigGetCustomParam (L.mapErr f) paramIndex timeoutMs w).1
          = (ConfigGetCustomParam L paramIndex timeoutMs w).1) :=
  ⟨rfl, rfl, rfl, rfl, fun _ => ⟨rfl, rfl⟩⟩

/-! ## C11: GetGeneralInputs -/

theorem GetGeneralInputs_run {σ : Type} (L : Link σ) (pin : GeneralPin → Nat)
    (allPins : PinValues) (w : World σ) :
    GetGeneralInputs L pin allPins w =
      (((L Cmd.c_CANifier_GetGeneralInputs w.dev).1.err,
        { LIMF := pinAt (L Cmd.c_CANifier_GetGeneralInputs w.dev).1.pinsOut (pin .LIMF),
          LIMR := pinAt (L Cmd.c_CANifier_GetGeneralInputs w.dev).1.pinsOut (pin .LIMR),
          QUAD_A := pinAt (L Cmd.c_CANifier_GetGeneralInputs w.dev).1.pinsOut (pin .QUAD_A),
          QUAD_B := pinAt (L Cmd.c_CANifier_GetGeneralInputs w.dev).1.pinsOut (pin .QUAD_B),
          QUAD_IDX := pinAt (L Cmd.c_CANifier_GetGeneralInputs w.dev).1.pinsOut (pin .QUAD_IDX),
          SCL := pinAt (L Cmd.c_CANifier_GetGeneralInputs w.dev).1.pinsOut (pin .SCL),
          SDA := pinAt (L Cmd.c_CANifier_GetGeneralInputs w.dev).1.pinsOut (pin .SDA),
          SPI_CLK_PWM0 :=
            pinAt (L Cmd.c_CANifier_GetGeneralInputs w.dev).1.pinsOut (pin .SPI_CLK_PWM0P),
          SPI_MOSI_PWM1 :=
            pinAt (L Cmd.c_CANifier_GetGeneralInputs w.dev).1.pinsOut (pin .SPI_MOSI_PWM1P),
          SPI_MISO_PWM2 :=
            pinAt (L Cmd.c_CANifier_GetGeneralInputs w.dev).1.pinsOut (pin .SPI_MISO_PWM2P),
          SPI_CS_PWM3 := pinAt (L Cmd.c_CANifier_GetGeneralInputs w.dev).1.pinsOut (pin .SPI_CS) }),
       ⟨(L Cmd.c_CANifier_GetGeneralInputs w.dev).2,
        w.trace ++ [(Cmd.c_CANifier_GetGeneralInputs,
          (L Cmd.c_CANifier_GetGeneralInputs w.dev).1)]⟩) := rfl

theorem fieldOf_GetGeneralInputs {σ : Type} (L : Link σ) (pin : GeneralPin → Nat)
    (allPins : PinValues) (w : World σ) (p : GeneralPin) :
    (GetGeneralInputs L pin allPins w).1.2.fieldOf p
      = pinAt (L Cmd.c_CANifier_GetGeneralInputs w.dev).1.pinsOut (pin p) := by
  rw [GetGeneralInputs_run]
  cases p <;> rfl

theorem fields_eq_map (v : PinValues) :
    v.fields = [GeneralPin.LIMF, .LIMR, .QUAD_A, .QUAD_B, .QUAD_IDX, .SCL, .SDA, .SPI_CLK_PWM0P,
      .SPI_MOSI_PWM1P, .SPI_MISO_PWM2P, .SPI_CS].map v.fieldOf := rfl

theorem samplePin_distinct : DistinctPositions samplePin := by
  intro a b h
  cases a <;> cases b <;> first | rfl | exact absurd h (by decide)

/-- C11 (pin-snapshot decode).  For every link, world and table `pin` of
positions: GetGeneralInputs makes the one call `c_CANifier_GetGeneralInputs`,
returns the outcome of that call unchanged, and fills each of the eleven fields
of PinValues from the position of its own enumerator in the raw read.  When the
positions are pairwise distinct and, among them, the raw read has exactly the
position of `p0` set, the field of `p0` is the only true field of the result:
exactly one of the eleven fields is true. -/
theorem GetGeneralInputs_decodes_each_pin {σ : Type} (L : Link σ) (pin : GeneralPin → Nat)
    (allPins : PinValues) (w : World σ) (p0 : GeneralPin) (hdist : DistinctPositions pin)
    (hone : ∀ p, pinAt (L Cmd.c_CANifier_GetGeneralInputs w.dev).1.pinsOut (pin p) = true
      ↔ pin p = pin p0) :
    (GetGeneralInputs L pin allPins w).2.trace
        = w.trace ++ [(Cmd.c_CANifier_GetGeneralInputs,
            (L Cmd.c_CANifier_GetGeneralInputs w.dev).1)]
    ∧ (GetGeneralInputs L pin allPins w).1.1 = (L Cmd.c_CANifier_GetGeneralInputs w.dev).1.err
    ∧ (∀ p, (GetGeneralInputs L pin allPins w).1.2.fieldOf p
        = pinAt (L Cmd.c_CANifier_GetGeneralInputs w.dev).1.pinsOut (pin p))
    ∧ (∀ p, (GetGeneralInputs L pin allPins w).1.2.fieldOf p = true ↔ p = p0)
    ∧ (GetGeneralInputs L pin allPins w).1.2.fields.count true = 1 := by
  have hfield := fieldOf_GetGeneralInputs L pin allPins w
  have hiff : ∀ p, (GetGeneralInputs L pin allPins w).1.2.fieldOf p = true ↔ p = p0 := by
    intro p
    rw [hfield, hone]
    exact ⟨fun h => hdist h, fun h => by rw [h]⟩
  have hdec : ∀ p, (GetGeneralInputs L pin allPins w).1.2.fieldOf p = decide (p = p0) := by
    intro p
    rw [Bool.eq_iff_iff, hiff, decide_eq_true_iff]
  refine ⟨rfl, rfl, hfield, hiff, ?_⟩
  rw [fields_eq_map]
  simp only [List.map_cons, List.map_nil, hdec]
  cases p0 <;> decide

/-- Witness of C11: with the positions numbered 0 to 10 and a raw read in which
position 4 alone is set, the only true field of the result is LIMF. -/
theorem GetGeneralInputs_decodes_each_pin_witness :
    DistinctPositions samplePin
    ∧ (∀ p, pinAt ((constLink ⟨OK, 0, 0, sampleRawPins⟩) Cmd.c_CANifier_GetGeneralInputs
          (World.start ()).dev).1.pinsOut (samplePin p) = true
        ↔ samplePin p = samplePin GeneralPin.LIMF)
    ∧ (∀ p, (GetGeneralInputs (constLink ⟨OK, 0, 0, sampleRawPins⟩) samplePin PinValues.clear
          (World.start ())).1.2.fieldOf p = true ↔ p = GeneralPin.LIMF)
    ∧ (GetGeneralInputs (constLink ⟨OK, 0, 0, sampleRawPins⟩) samplePin PinValues.clear
          (World.start ())).1.2.fields.count true = 1 :=
  have hone : ∀ p, pinAt ((constLink ⟨OK, 0, 0, sampleRawPins⟩) Cmd.c_CANifier_GetGeneralInputs
        (World.start ()).dev).1.pinsOut (samplePin p) = true
      ↔ samplePin p = samplePin GeneralPin.LIMF := by
    intro p
    cases p <;> decide
  ⟨samplePin_distinct, hone,
   (GetGeneralInputs_decodes_each_pin (constLink ⟨OK, 0, 0, sampleRawPins⟩) samplePin
      PinValues.clear (World.start ()) GeneralPin.LIMF samplePin_distinct hone).2.2.2.1,
   (GetGeneralInputs_decodes_each_pin (constLink ⟨OK, 0, 0, sampleRawPins⟩) samplePin
      PinValues.clear (World.start ()) GeneralPin.LIMF samplePin_distinct hone).2.2.2.2⟩

/-! ## C12: the rounding rule of the duty-cycle conversion -/

/-- C12 as stated fails: for the double 1127000493261825 * 2^-60, whose exact
product with 1023 is 1 - 2^-60, the truncation toward zero of the exact product
is 0, while SetPWMOutput and SetLEDOutput both send the duty value 1, the product
of the two doubles being 1. -/
theorem duty_exact_truncation_counterexample :
    roundDouble dutyJustBelowStep = dutyJustBelowStep
    ∧ toInt (1023 * min (max dutyJustBelowStep 0) 1) = 0
    ∧ cmds (SetPWMOutput (storeLink sampleDefault) 0 dutyJustBelowStep
        (World.start (storeOf sampleDefault))).2.trace = [Cmd.c_CANifier_SetPWMOutput 0 1]
    ∧ cmds (SetLEDOutput (storeLink sampleDefault) dutyJustBelowStep 0
        (World.start (storeOf sampleDefault))).2.trace = [Cmd.c_CANifier_SetLEDOutput 1 0] := by
  have hclamp : min (max dutyJustBelowStep 0) 1 = dutyJustBelowStep := by
    unfold dutyJustBelowStep
    rw [max_eq_left (by norm_num), min_eq_left (by norm_num)]
  have hduty : toInt (roundDouble (1023 * min (max dutyJustBelowStep 0) 1)) = 1 := by
    rw [hclamp, roundDouble_product_dutyJustBelowStep]
    exact toInt_intCast 1
  refine ⟨roundDouble_dutyJustBelowStep, ?_, ?_, ?_⟩
  · rw [hclamp]
    unfold dutyJustBelowStep toInt
    rw [if_pos (by norm_num), Int.floor_eq_iff]
    norm_num
  · show [Cmd.c_CANifier_SetPWMOutput (clampChannel 0) (SetPWMOutput_dutyCyc10bit dutyJustBelowStep)]
      = _
    rw [pwm_duty_eq, hduty]
    rfl
  · show [Cmd.c_CANifier_SetLEDOutput (SetLEDOutput_dutyCycle dutyJustBelowStep) 0] = _
    rw [led_duty_eq, hduty]

/-- C12 as amended.  For every duty fraction `x`, SetLEDOutput and SetPWMOutput
send the same duty value `d`, the truncation toward zero of the product of the
doubles 1023 and min(max(x,0),1), that is of their exact product rounded to
binary64; for `x = 1/2` both send 511. -/
theorem duty_same_truncated_product {σ : Type} (L L' : Link σ) (w w' : World σ) (x : ℚ)
    (pwmChannel ledChannel : Int) :
    ∃ d, d = toInt (roundDouble (1023 * min (max x 0) 1))
      ∧ cmds (SetPWMOutput L pwmChannel x w).2.trace
          = cmds w.trace ++ [Cmd.c_CANifier_SetPWMOutput (max pwmChannel 0) d]
      ∧ cmds (SetLEDOutput L' x ledChannel w').2.trace
          = cmds w'.trace ++ [Cmd.c_CANifier_SetLEDOutput d ledChannel]
      ∧ (x = 1 / 2 → d = 511) := by
  refine ⟨_, rfl, ?_, ?_, ?_⟩
  · rw [← pwm_duty_eq, ← clampChannel_eq_max]
    simp [SetPWMOutput, call, cmds, bind, StateT.bind, pure, StateT.pure]
  · rw [← led_duty_eq]
    simp [SetLEDOutput, call, cmds, bind, StateT.bind, pure, StateT.pure]
  · intro hx
    rw [hx, max_eq_left (by norm_num), min_eq_left (by norm_num)]
    have : (1023 : ℚ) * (1 / 2) = 1023 / 2 := by norm_num
    rw [this, roundDouble_half1023]
    unfold toInt
    rw [if_pos (by norm_num), Int.floor_eq_iff]
    norm_num

/-- Witness of C12 as amended: on the store device both functions send 511 for
the duty fraction 1/2. -/
theorem duty_same_truncated_product_witness :
    ∃ d, d = 511
      ∧ cmds (SetPWMOutput (storeLink sampleDefault) 2 (1 / 2)
          (World.start (storeOf sampleDefault))).2.trace
        = [Cmd.c_CANifier_SetPWMOutput 2 d]
      ∧ cmds (SetLEDOutput (storeLink sampleDefault) (1 / 2) 0
          (World.start (storeOf sampleDefault))).2.trace
        = [Cmd.c_CANifier_SetLEDOutput d 0] := by
  obtain ⟨d, _, hpwm, hled, hhalf⟩ :=
    duty_same_truncated_product (storeLink sampleDefault) (storeLink sampleDefault)
      (World.start (storeOf sampleDefault)) (World.start (storeOf sampleDefault)) (1 / 2) 2 0
  exact ⟨d, hhalf rfl, by simpa [World.start, cmds] using hpwm,
    by simpa [World.start, cmds] using hled⟩

end CANifier
